import Mathlib

/-!
Verification development for the loop_tool cursor-driven agent
(`include/loop_tool/agent.h`).

The agent header is the authoritative source for the agent layer
(action table, `apply_action`, `get_available_actions`, `serialize`,
`deserialize`, the copy constructor, and each action wrapper).  The
loop-tree data structure, the mutation engine (`split`, `merge`,
`try_swap`, `annotate`, `copy_input`, `increase_reuse`,
`decrease_reuse`), navigation (`previous_ref`, `next_ref`), the static
`FLOPs` metric and the graph serializer live outside the provided
sources; those parts are modelled from the specification, with a doc
comment on each such definition saying what it models.
-/

namespace LoopTool

/-- Error kinds of the system, following the spec's error taxonomy
(UnknownAction / UnknownMetric / IllegalMutation / LoweringUnsupported /
MalformedSerialization), plus a `defect` kind for failures that are not
legality preconditions (e.g. an out-of-range `std::vector` access inside
an action, which the spec's design notes name as a genuine defect). -/
inductive Err where
  | unknownAction (help : String)
  | unknownMetric (help : String)
  | illegalMutation (msg : String)
  | loweringUnsupported (msg : String)
  | malformedSerialization (msg : String)
  | defect (msg : String)
deriving DecidableEq

/-- Whether an error is of the IllegalMutation kind. -/
def Err.isIllegalMutation : Err → Bool
  | .illegalMutation _ => true
  | _ => false

/-- Whether an error is of the MalformedSerialization kind. -/
def Err.isMalformedSerialization : Err → Bool
  | .malformedSerialization _ => true
  | _ => false

/-- Modelled from the spec: a per-loop-node annotation is "empty,
`vectorize`, or `unroll`; at most one annotation active at a time per
node" (§3), so it is modelled as this three-valued enumeration. -/
inductive Annot where
  | nothing
  | vectorize
  | unroll
deriving DecidableEq

/-- The annotation as the string the agent compares against
(`lt.annotation(cursor)` returns `""`, `"vectorize"` or `"unroll"`). -/
def Annot.str : Annot → String
  | .nothing => ""
  | .vectorize => "vectorize"
  | .unroll => "unroll"

/-- Numeric code used by the modelled graph serializer. -/
def Annot.code : Annot → Nat
  | .nothing => 0
  | .vectorize => 1
  | .unroll => 2

/-- Inverse of `Annot.code`. -/
def Annot.ofCode : Nat → Option Annot
  | 0 => some .nothing
  | 1 => some .vectorize
  | 2 => some .unroll
  | _ => none

/-- Modelled from the spec: a loop-tree node is "polymorphic over two
variants" (§3).  A *Loop node* carries an iteration variable, an extent
(`sz` full iterations) together with a remainder (`tl`, the spec's
"explicit remainder handling": a split of extent `N` by `k` realizes
`(N / k) * k + N % k = N` iterations exactly), a reuse counter standing
for the position of the materialization scope boundary shifted by
`increase_reuse` / `decrease_reuse`, an annotation and an ordered list
of children.  A *Leaf node* carries the identifiers of the input
tensors it consumes and the per-iteration operation count the dataflow
graph assigns to its compute operation. -/
inductive LTNode where
  | loop (v sz tl reuse : Nat) (annot : Annot) (children : List LTNode)
  | leaf (inputs : List Nat) (opCount : Nat)

/-- Modelled from the spec: the dataflow-graph-plus-schedule value a
loop tree is (re)built from; mutations are expressed through it, so it
determines the tree (§3 lifecycles, §9 whole-value replacement). -/
abbrev IR := LTNode

mutual

/-- Helper for structural induction over the nested tree type. -/
theorem LTNode.indT (P : LTNode → Prop) (Q : List LTNode → Prop)
    (hleaf : ∀ ins f, P (.leaf ins f))
    (hloop : ∀ v sz tl r a cs, Q cs → P (.loop v sz tl r a cs))
    (hnil : Q [])
    (hcons : ∀ t l, P t → Q l → Q (t :: l)) : ∀ t, P t
  | .leaf ins f => hleaf ins f
  | .loop v sz tl r a cs =>
    hloop v sz tl r a cs (LTNode.indL P Q hleaf hloop hnil hcons cs)

/-- Helper for structural induction over forests of tree nodes. -/
theorem LTNode.indL (P : LTNode → Prop) (Q : List LTNode → Prop)
    (hleaf : ∀ ins f, P (.leaf ins f))
    (hloop : ∀ v sz tl r a cs, Q cs → P (.loop v sz tl r a cs))
    (hnil : Q [])
    (hcons : ∀ t l, P t → Q l → Q (t :: l)) : ∀ l, Q l
  | [] => hnil
  | t :: l =>
    hcons t l (LTNode.indT P Q hleaf hloop hnil hcons t)
      (LTNode.indL P Q hleaf hloop hnil hcons l)

end

mutual

/-- Boolean structural equality of tree nodes. -/
def beqT : LTNode → LTNode → Bool
  | .loop v sz tl r a cs, .loop v' sz' tl' r' a' cs' =>
    v == v' && sz == sz' && tl == tl' && r == r' && decide (a = a') && beqL cs cs'
  | .leaf ins f, .leaf ins' f' => ins == ins' && f == f'
  | _, _ => false

/-- Boolean structural equality of forests. -/
def beqL : List LTNode → List LTNode → Bool
  | [], [] => true
  | c :: cs, c' :: cs' => beqT c c' && beqL cs cs'
  | _, _ => false

end

theorem beqT_iff : ∀ a b : LTNode, beqT a b = true ↔ a = b := by
  have main := LTNode.indT (fun a => ∀ b, beqT a b = true ↔ a = b)
    (fun l => ∀ m, beqL l m = true ↔ l = m)
    (by intro ins f b
        cases b <;> simp [beqT])
    (by intro v sz tl r a cs ih b
        cases b <;> simp [beqT, ih]
        tauto)
    (by intro m
        cases m <;> simp [beqL])
    (by intro t l iht ihl m
        cases m <;> simp [beqL, iht, ihl])
  exact main

theorem beqL_iff : ∀ l m : List LTNode, beqL l m = true ↔ l = m := by
  have main := LTNode.indL (fun a => ∀ b, beqT a b = true ↔ a = b)
    (fun l => ∀ m, beqL l m = true ↔ l = m)
    (by intro ins f b
        cases b <;> simp [beqT])
    (by intro v sz tl r a cs ih b
        cases b <;> simp [beqT, ih]
        tauto)
    (by intro m
        cases m <;> simp [beqL])
    (by intro t l iht ihl m
        cases m <;> simp [beqL, iht, ihl])
  exact main

instance : DecidableEq LTNode := fun a b => decidable_of_iff _ (beqT_iff a b)

/-- Modelled from the spec: a loop tree, "created once (from a dataflow
graph) and thereafter only replaced wholesale by mutation results". -/
structure LoopTree where
  ir : IR
deriving DecidableEq

/-- `LoopTree(ir)`: rebuilding a loop tree from a dataflow graph value,
as the agent's copy constructor and `deserialize` do. -/
def LoopTree.ofIR (g : IR) : LoopTree := ⟨g⟩

/-- `LoopTree::TreeRef` is an `int` in the source (`std::to_string` is
applied to the cursor); a non-negative value is the preorder position of
a node in the tree's fixed depth-first linearization (§4.1). -/
abbrev TreeRef := Int

mutual

/-- Number of nodes of a tree (its preorder linearization length). -/
def sizeT : LTNode → Nat
  | .leaf _ _ => 1
  | .loop _ _ _ _ _ cs => 1 + sizeL cs

/-- Number of nodes of a forest. -/
def sizeL : List LTNode → Nat
  | [] => 0
  | c :: cs => sizeT c + sizeL cs

end

mutual

/-- Node at preorder index `i` (0 is the root, children follow in
depth-first order). -/
def nodeAt : LTNode → Nat → Option LTNode
  | t, 0 => some t
  | .leaf _ _, _ + 1 => none
  | .loop _ _ _ _ _ cs, i + 1 => nodeAtL cs i

/-- Node at index `i` of the preorder linearization of a forest. -/
def nodeAtL : List LTNode → Nat → Option LTNode
  | [], _ => none
  | c :: cs, i => if i < sizeT c then nodeAt c i else nodeAtL cs (i - sizeT c)

end

/-- Node lookup through an `int` tree reference. -/
def nodeAtI (t : LTNode) (r : TreeRef) : Option LTNode :=
  if r < 0 then none else nodeAt t r.toNat

/-- The error the engine raises for a reference outside the tree. -/
def refErr : Err := .illegalMutation "tree reference is not a node of this tree"

mutual

/-- Rewrite the node at preorder index `i` with `f`, rebuilding the
tree around it; the engine's "replace subtree rooted near ref" step. -/
def modifyAt (f : LTNode → Except Err LTNode) : LTNode → Nat → Except Err LTNode
  | t, 0 => f t
  | .leaf _ _, _ + 1 => .error refErr
  | .loop v sz tl r a cs, i + 1 => (modifyAtL f cs i).map (.loop v sz tl r a ·)

/-- `modifyAt` on the preorder linearization of a forest. -/
def modifyAtL (f : LTNode → Except Err LTNode) : List LTNode → Nat → Except Err (List LTNode)
  | [], _ => .error refErr
  | c :: cs, i =>
    if i < sizeT c then (modifyAt f c i).map (· :: cs)
    else (modifyAtL f cs (i - sizeT c)).map (c :: ·)

end

/-- `modifyAt` through an `int` tree reference. -/
def modifyAtI (f : LTNode → Except Err LTNode) (t : LTNode) (r : TreeRef) : Except Err LTNode :=
  if r < 0 then .error refErr else modifyAt f t r.toNat

mutual

/-- Modelled from the spec: the static operation count.  "`FLOPs(tree)`:
sum, over all Leaf nodes, of (product of extents of all enclosing Loop
nodes) × (operation's per-element op count)" (§4.4), with split
remainders realized exactly: a loop contributes `sz` full executions of
its body plus `tl` executions of the bodies of its same-variable inner
loops (so that a split pair of sizes `N / k` (remainder `N % k`) over
`k` realizes exactly `N` body iterations).  `V` is the set of iteration
variables currently truncated to a single remainder element. -/
def flopsT (V : List Nat) : LTNode → Nat
  | .leaf _ f => f
  | .loop v sz tl _ _ cs =>
    if v ∈ V then flopsTL V cs
    else sz * flopsTL V cs + tl * flopsTL (v :: V) cs

/-- `flopsT` summed over a forest. -/
def flopsTL (V : List Nat) : List LTNode → Nat
  | [] => 0
  | c :: cs => flopsT V c + flopsTL V cs

end

/-- The FLOPs count of a whole tree (no variable truncated). -/
def treeFLOPs (t : LTNode) : Nat := flopsT [] t

mutual

/-- Input tensor identifiers consumed by the leaves of a subtree. -/
def inputsUnder : LTNode → List Nat
  | .leaf ins _ => ins
  | .loop _ _ _ _ _ cs => inputsUnderL cs

/-- Input tensor identifiers consumed under a forest. -/
def inputsUnderL : List LTNode → List Nat
  | [] => []
  | c :: cs => inputsUnder c ++ inputsUnderL cs

end

mutual

/-- Height of a tree (used to bound the decoder fuel). -/
def heightT : LTNode → Nat
  | .leaf _ _ => 1
  | .loop _ _ _ _ _ cs => 1 + heightL cs

/-- Height of a forest. -/
def heightL : List LTNode → Nat
  | [] => 0
  | c :: cs => max (heightT c) (heightL cs)

end

namespace Mutate

/-- Modelled from the spec: `previous_ref(tree, ref)` "returns the
`TreeRef` immediately before `ref` in the tree's fixed linearization"
and fails at the boundary — "callers must treat boundary navigation as
a no-op/failure, not wrap around" (§4.2). -/
def previous_ref (t : LTNode) (r : TreeRef) : Except Err TreeRef :=
  if 0 < r ∧ r < sizeT t then .ok (r - 1)
  else .error (.illegalMutation "no previous node in traversal order")

/-- Modelled from the spec: `next_ref(tree, ref)`, the successor in the
fixed linearization, failing at the last node (§4.2). -/
def next_ref (t : LTNode) (r : TreeRef) : Except Err TreeRef :=
  if 0 ≤ r ∧ r + 1 < sizeT t then .ok (r + 1)
  else .error (.illegalMutation "no next node in traversal order")

/-- Local rewrite of `split k`: "Replaces it with two nested loops"; the
outer keeps `N / k` full iterations plus the `N % k` remainder (so its
trip count is `⌈N / k⌉` and the realized iteration product is exactly
`N`), the inner has extent `k`, and the descendants move under the
inner loop.  Fails when `k ≤ 0` or `ref` is a Leaf (§4.3); a loop
already carrying a remainder is not split further in this model. -/
def splitF (k : Nat) : LTNode → Except Err LTNode
  | .loop v sz tl r a cs =>
    if k = 0 then .error (.illegalMutation "split size must be positive")
    else if tl ≠ 0 then .error (.illegalMutation "cannot split a loop carrying a remainder")
    else .ok (.loop v (sz / k) (sz % k) r a [.loop v k 0 0 .nothing cs])
  | .leaf _ _ => .error (.illegalMutation "split: reference is not a loop")

/-- Modelled from the spec: `split(tree, ref, k)` (§4.3). -/
def split (t : LTNode) (r : TreeRef) (k : Nat) : Except Err LTNode :=
  modifyAtI (splitF k) t r

/-- Local rewrite of `merge`: "ref is a Loop node whose single child is
also a Loop node with no sibling — collapses the pair into one loop with
extent = product of the two extents" (§4.3); the outer's remainder is
re-absorbed so the realized extent `sz * k + tl` is preserved.  A child
carrying its own remainder is not merged in this model. -/
def mergeF : LTNode → Except Err LTNode
  | .loop v sz tl r a [.loop _ k 0 _ _ cs] => .ok (.loop v (sz * k + tl) 0 r a cs)
  | .loop _ _ _ _ _ _ => .error (.illegalMutation "merge: child is not a sole loop node")
  | .leaf _ _ => .error (.illegalMutation "merge: reference is not a loop")

/-- Modelled from the spec: `merge(tree, ref)` (§4.3). -/
def merge (t : LTNode) (r : TreeRef) : Except Err LTNode :=
  modifyAtI mergeF t r

/-- Local rewrite of `try_swap` at the outer node of an adjacent pair:
two perfectly nested loops over distinct variables (no remainders)
"exchange their relative nesting order (their subtrees trade
position)"; a swap violating this shape — the modelled data-dependency
legality — fails (§4.3). -/
def swapF : LTNode → Except Err LTNode
  | .loop v1 s1 0 r1 a1 [.loop v2 s2 0 r2 a2 cs] =>
    if v1 = v2 then .error (.illegalMutation "swap would reorder a dependent pair")
    else .ok (.loop v2 s2 0 r2 a2 [.loop v1 s1 0 r1 a1 cs])
  | _ => .error (.illegalMutation "swap: not a perfectly nested loop pair")

/-- Modelled from the spec: `try_swap(tree, ref, other)` requires the
two references to be adjacent in traversal order (§4.3); the node pair
`(j, j + 1)` is rewritten at `j`. -/
def try_swap (t : LTNode) (r other : TreeRef) : Except Err LTNode :=
  if other = r + 1 then modifyAtI swapF t r
  else if r = other + 1 then modifyAtI swapF t other
  else .error (.illegalMutation "swap: references are not adjacent")

/-- Local rewrite of `annotate`: a new node "identical except for the
named node's annotation"; fails on a Leaf (§4.1, §4.3). -/
def annotF (a : Annot) : LTNode → Except Err LTNode
  | .loop v sz tl r _ cs => .ok (.loop v sz tl r a cs)
  | .leaf _ _ => .error (.illegalMutation "annotate: reference is not a loop")

/-- Modelled from the spec: `annotate(tree, ref, text)` (§4.1, §4.3). -/
def annotate (t : LTNode) (r : TreeRef) (a : Annot) : Except Err LTNode :=
  modifyAtI (annotF a) t r

/-- Modelled from the spec: the reading side of `lt.annotation(ref)`;
a Leaf or an invalid reference reads as unannotated. -/
def annotStr (t : LTNode) (r : TreeRef) : String :=
  match nodeAtI t r with
  | some (.loop _ _ _ _ a _) => a.str
  | _ => ""

/-- Modelled from the spec: `get_inputs(tree, ref)`, the "unique
operation/tensor identifiers usable as `input_id` arguments" consumed
transitively under `ref` (§6); an invalid reference consumes nothing. -/
def get_inputs (t : LTNode) (r : TreeRef) : List Nat :=
  match nodeAtI t r with
  | some n => (inputsUnder n).dedup
  | none => []

/-- Local rewrite of `copy_input`: "inserts a materializing copy of that
input scoped at ref"; fails when `input_id` is "not found among ref's
transitive inputs" or the scope is a Leaf (§4.3).  The copy node is a
leaf reading the copied tensor; the spec assigns it no op count. -/
def copyInputF (inputId : Nat) : LTNode → Except Err LTNode
  | .loop v sz tl r a cs =>
    if inputId ∈ inputsUnderL cs then .ok (.loop v sz tl r a (.leaf [inputId] 0 :: cs))
    else .error (.illegalMutation "copy_input: tensor is not consumed under this scope")
  | .leaf _ _ => .error (.illegalMutation "copy_input: reference is not a loop")

/-- Modelled from the spec: `copy_input(tree, ref, input_id)` (§4.3). -/
def copy_input (t : LTNode) (r : TreeRef) (inputId : Nat) : Except Err LTNode :=
  modifyAtI (copyInputF inputId) t r

/-- Local rewrite of `increase_reuse`: "moves the scope boundary of a
cached/materialized buffer outward relative to ref" (§4.3); the
boundary position is modelled by the loop's reuse counter. -/
def increaseReuseF : LTNode → Except Err LTNode
  | .loop v sz tl r a cs => .ok (.loop v sz tl (r + 1) a cs)
  | .leaf _ _ => .error (.illegalMutation "increase_reuse: no eligible adjacent scope")

/-- Modelled from the spec: `increase_reuse(tree, ref)` (§4.3). -/
def increase_reuse (t : LTNode) (r : TreeRef) : Except Err LTNode :=
  modifyAtI increaseReuseF t r

/-- Local rewrite of `decrease_reuse`, the inward move; it fails when
no boundary has been moved outward ("no eligible adjacent scope to
move", §4.3). -/
def decreaseReuseF : LTNode → Except Err LTNode
  | .loop v sz tl (r + 1) a cs => .ok (.loop v sz tl r a cs)
  | .loop _ _ _ 0 _ _ => .error (.illegalMutation "decrease_reuse: no eligible adjacent scope")
  | .leaf _ _ => .error (.illegalMutation "decrease_reuse: no eligible adjacent scope")

/-- Modelled from the spec: `decrease_reuse(tree, ref)` (§4.3). -/
def decrease_reuse (t : LTNode) (r : TreeRef) : Except Err LTNode :=
  modifyAtI decreaseReuseF t r

end Mutate


deriving instance DecidableEq for Except

/-! ### Properties of indexed rewriting -/

theorem modifyAt_error_of_f (f : LTNode → Except Err LTNode) :
    ∀ t : LTNode, ∀ i n e, nodeAt t i = some n → f n = .error e →
      modifyAt f t i = .error e := by
  refine LTNode.indT
    (fun t => ∀ i n e, nodeAt t i = some n → f n = .error e → modifyAt f t i = .error e)
    (fun l => ∀ i n e, nodeAtL l i = some n → f n = .error e → modifyAtL f l i = .error e)
    ?_ ?_ ?_ ?_
  · intro ins f0 i n e h1 h2
    cases i with
    | zero =>
      simp [nodeAt] at h1
      subst h1
      simpa [modifyAt] using h2
    | succ j => simp [nodeAt] at h1
  · intro v sz tl r a cs ih i n e h1 h2
    cases i with
    | zero =>
      simp [nodeAt] at h1
      subst h1
      simpa [modifyAt] using h2
    | succ j =>
      simp [nodeAt] at h1
      simp [modifyAt, ih j n e h1 h2, Except.map]
  · intro i n e h1 h2
    simp [nodeAtL] at h1
  · intro c l ihc ihl i n e h1 h2
    by_cases hi : i < sizeT c
    · simp [nodeAtL, hi] at h1
      simp [modifyAtL, hi, ihc i n e h1 h2, Except.map]
    · simp [nodeAtL, hi] at h1
      simp [modifyAtL, hi, ihl (i - sizeT c) n e h1 h2, Except.map]

theorem modifyAt_size_mono (f : LTNode → Except Err LTNode)
    (hsize : ∀ n n', f n = .ok n' → sizeT n ≤ sizeT n') :
    ∀ t : LTNode, ∀ i t', modifyAt f t i = .ok t' → sizeT t ≤ sizeT t' := by
  refine LTNode.indT
    (fun t => ∀ i t', modifyAt f t i = .ok t' → sizeT t ≤ sizeT t')
    (fun l => ∀ i l', modifyAtL f l i = .ok l' → sizeL l ≤ sizeL l')
    ?_ ?_ ?_ ?_
  · intro ins f0 i t' h
    cases i with
    | zero => exact hsize _ _ (by simpa [modifyAt] using h)
    | succ j => simp [modifyAt] at h
  · intro v sz tl r a cs ih i t' h
    cases i with
    | zero => exact hsize _ _ (by simpa [modifyAt] using h)
    | succ j =>
      simp [modifyAt, Except.map] at h
      cases hm : modifyAtL f cs j with
      | error e => rw [hm] at h; simp at h
      | ok cs' =>
        rw [hm] at h
        simp at h
        subst h
        simpa [sizeT] using ih j cs' hm
  · intro i l' h
    simp [modifyAtL] at h
  · intro c l ihc ihl i l' h
    by_cases hi : i < sizeT c
    · simp [modifyAtL, hi, Except.map] at h
      cases hm : modifyAt f c i with
      | error e => rw [hm] at h; simp at h
      | ok c' =>
        rw [hm] at h
        simp at h
        subst h
        have := ihc i c' hm
        simp [sizeL]
        omega
    · simp [modifyAtL, hi, Except.map] at h
      cases hm : modifyAtL f l (i - sizeT c) with
      | error e => rw [hm] at h; simp at h
      | ok l2 =>
        rw [hm] at h
        simp at h
        subst h
        have := ihl (i - sizeT c) l2 hm
        simp [sizeL]
        omega

theorem modifyAt_ok_of_nodeAt (f : LTNode → Except Err LTNode)
    (hsize : ∀ n n', f n = .ok n' → sizeT n ≤ sizeT n') :
    ∀ t : LTNode, ∀ i n n', nodeAt t i = some n → f n = .ok n' →
      ∃ t', modifyAt f t i = .ok t' ∧ nodeAt t' i = some n' := by
  refine LTNode.indT
    (fun t => ∀ i n n', nodeAt t i = some n → f n = .ok n' →
      ∃ t', modifyAt f t i = .ok t' ∧ nodeAt t' i = some n')
    (fun l => ∀ i n n', nodeAtL l i = some n → f n = .ok n' →
      ∃ l', modifyAtL f l i = .ok l' ∧ nodeAtL l' i = some n')
    ?_ ?_ ?_ ?_
  · intro ins f0 i n n' h1 h2
    cases i with
    | zero =>
      simp [nodeAt] at h1
      subst h1
      exact ⟨n', by simpa [modifyAt] using h2, by simp [nodeAt]⟩
    | succ j => simp [nodeAt] at h1
  · intro v sz tl r a cs ih i n n' h1 h2
    cases i with
    | zero =>
      simp [nodeAt] at h1
      subst h1
      exact ⟨n', by simpa [modifyAt] using h2, by simp [nodeAt]⟩
    | succ j =>
      simp [nodeAt] at h1
      obtain ⟨cs', hm, hn⟩ := ih j n n' h1 h2
      exact ⟨.loop v sz tl r a cs', by simp [modifyAt, hm, Except.map],
        by simpa [nodeAt] using hn⟩
  · intro i n n' h1 h2
    simp [nodeAtL] at h1
  · intro c l ihc ihl i n n' h1 h2
    by_cases hi : i < sizeT c
    · simp [nodeAtL, hi] at h1
      obtain ⟨c', hm, hn⟩ := ihc i n n' h1 h2
      have hle : sizeT c ≤ sizeT c' := modifyAt_size_mono f hsize c i c' hm
      refine ⟨c' :: l, by simp [modifyAtL, hi, hm, Except.map], ?_⟩
      simp [nodeAtL, show i < sizeT c' by omega, hn]
    · simp [nodeAtL, hi] at h1
      obtain ⟨l2, hm, hn⟩ := ihl (i - sizeT c) n n' h1 h2
      refine ⟨c :: l2, by simp [modifyAtL, hi, hm, Except.map], ?_⟩
      simp [nodeAtL, hi, hn]

theorem modifyAt_comp (f g : LTNode → Except Err LTNode)
    (hsize : ∀ n n', f n = .ok n' → sizeT n ≤ sizeT n') :
    ∀ t : LTNode, ∀ i t', modifyAt f t i = .ok t' →
      modifyAt g t' i = modifyAt (fun n => (f n).bind g) t i := by
  refine LTNode.indT
    (fun t => ∀ i t', modifyAt f t i = .ok t' →
      modifyAt g t' i = modifyAt (fun n => (f n).bind g) t i)
    (fun l => ∀ i l', modifyAtL f l i = .ok l' →
      modifyAtL g l' i = modifyAtL (fun n => (f n).bind g) l i)
    ?_ ?_ ?_ ?_
  · intro ins f0 i t' h
    cases i with
    | zero =>
      simp [modifyAt] at h
      simp [modifyAt, h, Except.bind]
    | succ j => simp [modifyAt] at h
  · intro v sz tl r a cs ih i t' h
    cases i with
    | zero =>
      simp [modifyAt] at h
      simp [modifyAt, h, Except.bind]
    | succ j =>
      simp [modifyAt, Except.map] at h
      cases hm : modifyAtL f cs j with
      | error e => rw [hm] at h; simp at h
      | ok cs' =>
        rw [hm] at h
        simp at h
        subst h
        simp [modifyAt, ih j cs' hm, Except.map]
  · intro i l' h
    simp [modifyAtL] at h
  · intro c l ihc ihl i l' h
    by_cases hi : i < sizeT c
    · simp [modifyAtL, hi, Except.map] at h
      cases hm : modifyAt f c i with
      | error e => rw [hm] at h; simp at h
      | ok c' =>
        rw [hm] at h
        simp at h
        subst h
        have hle : sizeT c ≤ sizeT c' := modifyAt_size_mono f hsize c i c' hm
        simp [modifyAtL, hi, show i < sizeT c' by omega, ihc i c' hm, Except.map]
    · simp [modifyAtL, hi, Except.map] at h
      cases hm : modifyAtL f l (i - sizeT c) with
      | error e => rw [hm] at h; simp at h
      | ok l2 =>
        rw [hm] at h
        simp at h
        subst h
        simp [modifyAtL, hi, ihl (i - sizeT c) l2 hm, Except.map]

theorem modifyAt_flopsT (f : LTNode → Except Err LTNode)
    (hf : ∀ n n', f n = .ok n' → ∀ V, flopsT V n' = flopsT V n) :
    ∀ t : LTNode, ∀ i t', modifyAt f t i = .ok t' →
      ∀ V, flopsT V t' = flopsT V t := by
  refine LTNode.indT
    (fun t => ∀ i t', modifyAt f t i = .ok t' → ∀ V, flopsT V t' = flopsT V t)
    (fun l => ∀ i l', modifyAtL f l i = .ok l' → ∀ V, flopsTL V l' = flopsTL V l)
    ?_ ?_ ?_ ?_
  · intro ins f0 i t' h V
    cases i with
    | zero => exact hf _ _ (by simpa [modifyAt] using h) V
    | succ j => simp [modifyAt] at h
  · intro v sz tl r a cs ih i t' h V
    cases i with
    | zero => exact hf _ _ (by simpa [modifyAt] using h) V
    | succ j =>
      simp [modifyAt, Except.map] at h
      cases hm : modifyAtL f cs j with
      | error e => rw [hm] at h; simp at h
      | ok cs' =>
        rw [hm] at h
        simp at h
        subst h
        simp [flopsT, ih j cs' hm]
  · intro i l' h V
    simp [modifyAtL] at h
  · intro c l ihc ihl i l' h V
    by_cases hi : i < sizeT c
    · simp [modifyAtL, hi, Except.map] at h
      cases hm : modifyAt f c i with
      | error e => rw [hm] at h; simp at h
      | ok c' =>
        rw [hm] at h
        simp at h
        subst h
        simp [flopsTL, ihc i c' hm]
    · simp [modifyAtL, hi, Except.map] at h
      cases hm : modifyAtL f l (i - sizeT c) with
      | error e => rw [hm] at h; simp at h
      | ok l2 =>
        rw [hm] at h
        simp at h
        subst h
        simp [flopsTL, ihl (i - sizeT c) l2 hm]

theorem nodeAtI_elim {t : LTNode} {r : TreeRef} {n : LTNode}
    (h : nodeAtI t r = some n) : ¬ r < 0 ∧ nodeAt t r.toNat = some n := by
  by_cases hr : r < 0
  · simp [nodeAtI, hr] at h
  · simpa [nodeAtI, hr] using h

theorem modifyAtI_error_of_f (f : LTNode → Except Err LTNode) {t : LTNode}
    {r : TreeRef} {n : LTNode} {e : Err} (h : nodeAtI t r = some n)
    (hf : f n = .error e) : modifyAtI f t r = .error e := by
  obtain ⟨hr, hn⟩ := nodeAtI_elim h
  simpa [modifyAtI, hr] using modifyAt_error_of_f f t r.toNat n e hn hf

theorem modifyAtI_ok_of_nodeAtI (f : LTNode → Except Err LTNode)
    (hsize : ∀ n n', f n = .ok n' → sizeT n ≤ sizeT n') {t : LTNode}
    {r : TreeRef} {n n' : LTNode} (h : nodeAtI t r = some n)
    (hf : f n = .ok n') :
    ∃ t', modifyAtI f t r = .ok t' ∧ nodeAtI t' r = some n' := by
  obtain ⟨hr, hn⟩ := nodeAtI_elim h
  obtain ⟨t', hm, hn'⟩ := modifyAt_ok_of_nodeAt f hsize t r.toNat n n' hn hf
  exact ⟨t', by simpa [modifyAtI, hr] using hm, by simpa [nodeAtI, hr] using hn'⟩

theorem modifyAtI_flopsT (f : LTNode → Except Err LTNode)
    (hf : ∀ n n', f n = .ok n' → ∀ V, flopsT V n' = flopsT V n) {t t' : LTNode}
    {r : TreeRef} (h : modifyAtI f t r = .ok t') :
    ∀ V, flopsT V t' = flopsT V t := by
  by_cases hr : r < 0
  · simp [modifyAtI, hr] at h
  · exact modifyAt_flopsT f hf t r.toNat t' (by simpa [modifyAtI, hr] using h)

theorem modifyAtI_comp (f g : LTNode → Except Err LTNode)
    (hsize : ∀ n n', f n = .ok n' → sizeT n ≤ sizeT n') {t t' : LTNode}
    {r : TreeRef} (h : modifyAtI f t r = .ok t') :
    modifyAtI g t' r = modifyAtI (fun n => (f n).bind g) t r := by
  by_cases hr : r < 0
  · simp [modifyAtI, hr] at h
  · have := modifyAt_comp f g hsize t r.toNat t' (by simpa [modifyAtI, hr] using h)
    simpa [modifyAtI, hr] using this

/-- The agent state of `LoopTreeAgent`: the owned loop tree and the
cursor (`LoopTree lt; LoopTree::TreeRef cursor;`). -/
structure LoopTreeAgent where
  lt : LoopTree
  cursor : TreeRef
deriving DecidableEq

namespace LoopTreeAgent

/-- `LoopTreeAgent(const LoopTreeAgent&)`: the copy constructor rebuilds
the tree from the copied agent's dataflow graph
(`lt = LoopTree(agent.lt.ir)`) and copies the cursor value. -/
def copy (a : LoopTreeAgent) : LoopTreeAgent :=
  { lt := LoopTree.ofIR a.lt.ir, cursor := a.cursor }

/-- `up()`: `cursor = previous_ref(lt, cursor)`. -/
def up (s : LoopTreeAgent) : Except Err LoopTreeAgent :=
  (Mutate.previous_ref s.lt.ir s.cursor).map (fun p => { s with cursor := p })

/-- `down()`: `cursor = next_ref(lt, cursor)`. -/
def down (s : LoopTreeAgent) : Except Err LoopTreeAgent :=
  (Mutate.next_ref s.lt.ir s.cursor).map (fun p => { s with cursor := p })

/-- `swap_up()`: `lt = try_swap(lt, cursor, previous_ref(lt, cursor))`. -/
def swap_up (s : LoopTreeAgent) : Except Err LoopTreeAgent :=
  match Mutate.previous_ref s.lt.ir s.cursor with
  | .error e => .error e
  | .ok p =>
    match Mutate.try_swap s.lt.ir s.cursor p with
    | .error e => .error e
    | .ok t => .ok { s with lt := ⟨t⟩ }

/-- `swap_down()`: `lt = try_swap(lt, cursor, next_ref(lt, cursor))`. -/
def swap_down (s : LoopTreeAgent) : Except Err LoopTreeAgent :=
  match Mutate.next_ref s.lt.ir s.cursor with
  | .error e => .error e
  | .ok p =>
    match Mutate.try_swap s.lt.ir s.cursor p with
    | .error e => .error e
    | .ok t => .ok { s with lt := ⟨t⟩ }

/-- `split(int split_size)`: `lt = split(lt, cursor, split_size)`. -/
def split (k : Nat) (s : LoopTreeAgent) : Except Err LoopTreeAgent :=
  (Mutate.split s.lt.ir s.cursor k).map (fun t => { s with lt := ⟨t⟩ })

/-- `merge()`: `lt = merge(lt, cursor)`. -/
def merge (s : LoopTreeAgent) : Except Err LoopTreeAgent :=
  (Mutate.merge s.lt.ir s.cursor).map (fun t => { s with lt := ⟨t⟩ })

/-- `annotate(std::string annotation)`: toggle semantics — if the
cursor node already carries exactly this annotation text, clear it,
otherwise set it. -/
def annotate (a : Annot) (s : LoopTreeAgent) : Except Err LoopTreeAgent :=
  if Mutate.annotStr s.lt.ir s.cursor = a.str then
    (Mutate.annotate s.lt.ir s.cursor .nothing).map (fun t => { s with lt := ⟨t⟩ })
  else
    (Mutate.annotate s.lt.ir s.cursor a).map (fun t => { s with lt := ⟨t⟩ })

/-- `vectorize()`: `annotate("vectorize")`. -/
def vectorize (s : LoopTreeAgent) : Except Err LoopTreeAgent := annotate .vectorize s

/-- `unroll()`: `annotate("unroll")`. -/
def unroll (s : LoopTreeAgent) : Except Err LoopTreeAgent := annotate .unroll s

/-- `copy_input_0` / `copy_input_1` index `get_inputs(lt, cursor)` with
an unchecked `std::vector::operator[]`; an out-of-range access is
undefined behavior in C++ and is modelled here as a `defect`-kind
failure (the spec's design notes name exactly this — "an out-of-bounds
access inside an action" — as a genuine defect rather than a legality
failure). -/
def copyInputIdx (i : Nat) (s : LoopTreeAgent) : Except Err LoopTreeAgent :=
  match (Mutate.get_inputs s.lt.ir s.cursor).get? i with
  | none => .error (.defect "vector subscript out of range in copy_input")
  | some inputId =>
    (Mutate.copy_input s.lt.ir s.cursor inputId).map (fun t => { s with lt := ⟨t⟩ })

/-- `copy_input_0()`. -/
def copy_input_0 (s : LoopTreeAgent) : Except Err LoopTreeAgent := copyInputIdx 0 s

/-- `copy_input_1()`. -/
def copy_input_1 (s : LoopTreeAgent) : Except Err LoopTreeAgent := copyInputIdx 1 s

/-- `increase_reuse()`: `lt = increase_reuse(lt, cursor)`. -/
def increase_reuse (s : LoopTreeAgent) : Except Err LoopTreeAgent :=
  (Mutate.increase_reuse s.lt.ir s.cursor).map (fun t => { s with lt := ⟨t⟩ })

/-- `decrease_reuse()`: `lt = decrease_reuse(lt, cursor)`. -/
def decrease_reuse (s : LoopTreeAgent) : Except Err LoopTreeAgent :=
  (Mutate.decrease_reuse s.lt.ir s.cursor).map (fun t => { s with lt := ⟨t⟩ })

/-- The names registered in `actions_fn`, listed in the iteration order
of `std::map<std::string, ActionFn>` (lexicographic by name), which is
the order `get_available_actions` and `help_actions` traverse. -/
def actionNames : List String :=
  ["copy_input_0", "copy_input_1", "decrease_reuse", "down", "increase_reuse",
   "merge", "split_128", "split_16", "split_2", "split_256", "split_32",
   "split_4", "split_64", "split_8", "swap_down", "swap_up", "unroll", "up",
   "vectorize"]

/-- The `actions_fn` table: name → member function, in map order. -/
def actionTable : List (String × (LoopTreeAgent → Except Err LoopTreeAgent)) :=
  [("copy_input_0", copy_input_0), ("copy_input_1", copy_input_1),
   ("decrease_reuse", decrease_reuse), ("down", down),
   ("increase_reuse", increase_reuse), ("merge", merge),
   ("split_128", split 128), ("split_16", split 16), ("split_2", split 2),
   ("split_256", split 256), ("split_32", split 32), ("split_4", split 4),
   ("split_64", split 64), ("split_8", split 8), ("swap_down", swap_down),
   ("swap_up", swap_up), ("unroll", unroll), ("up", up),
   ("vectorize", vectorize)]

/-- Association-list lookup (the model of `std::map::at` guarded by
`count`). -/
def lookupA {α : Type} : List (String × α) → String → Option α
  | [], _ => none
  | (k', v) :: rest, k => if k = k' then some v else lookupA rest k

/-- `help_actions()`: "Available actions are:" followed by each
registered action name on its own line. -/
def help_actions : String :=
  actionNames.foldl (fun acc n => acc ++ n ++ "\n") "Available actions are:\n"

/-- `help_metrics()`: the analogous listing for metrics. -/
def help_metrics : String :=
  ["FLOPS", "FLOPs", "seconds"].foldl (fun acc n => acc ++ n ++ "\n")
    "Available metrics are:\n"

/-- `apply_action(std::string action)`: assert the name is registered
(streaming `help_actions()` into the error otherwise), then invoke the
registered member function. -/
def apply_action (name : String) (s : LoopTreeAgent) : Except Err LoopTreeAgent :=
  match lookupA actionTable name with
  | some f => f s
  | none => .error (.unknownAction help_actions)

/-- The C++ call semantics of an action member seen from a caller that
catches: on success the agent holds the new state, and when the action
throws, the agent's `(lt, cursor)` are exactly as before the call
(every action mutates them by a single assignment of the engine's
result, so a throw happens before any write). -/
def tryApply (name : String) (s : LoopTreeAgent) : LoopTreeAgent :=
  match apply_action name s with
  | .ok s' => s'
  | .error _ => s

/-- One iteration of the `get_available_actions` loop: try the action
on the current state, record its name on success, swallow any thrown
`std::runtime_error`, then restore the snapshot
(`lt = lt_copy; cursor = cursor_copy`). -/
def gaaStep (snapshot : LoopTreeAgent) (acc : List String × LoopTreeAgent)
    (name : String) : List String × LoopTreeAgent :=
  let tried :=
    match apply_action name acc.2 with
    | .ok s' => (acc.1 ++ [name], s')
    | .error _ => (acc.1, acc.2)
  (tried.1, snapshot)

/-- `get_available_actions()`: snapshot `(lt, cursor)`, trial-apply
every registered action in map order, and return the collected names
together with the agent state left behind by the loop. -/
def get_available_actions (s : LoopTreeAgent) :
    List String × LoopTreeAgent :=
  actionNames.foldl (gaaStep s) ([], s)

/-- `FLOPs()` metric: the static operation count of the current tree. -/
def FLOPs (s : LoopTreeAgent) : Except Err Nat :=
  .ok (treeFLOPs s.lt.ir)

/-- Modelled from the spec: `seconds()` delegates to the external
backend (`eval_runtime`), which is out of scope; measuring wall-clock
time is not representable here, so the modelled backend reports the
spec's LoweringUnsupported failure. -/
def seconds (_ : LoopTreeAgent) : Except Err Nat :=
  .error (.loweringUnsupported "backend lowering is outside the modelled core")

/-- Modelled from the spec: `FLOPS()` = `FLOPs / seconds`; it needs the
backend measurement and therefore fails the same way `seconds` does. -/
def FLOPS (s : LoopTreeAgent) : Except Err Nat :=
  match seconds s with
  | .error e => .error e
  | .ok _ => FLOPs s

/-- The `metrics_fn` table, in `std::map` order ("FLOPS" < "FLOPs" <
"seconds" in byte order). -/
def metricTable : List (String × (LoopTreeAgent → Except Err Nat)) :=
  [("FLOPS", FLOPS), ("FLOPs", FLOPs), ("seconds", seconds)]

/-- `eval(std::string metric)`: assert the metric name is registered
(with the help listing), then compute it over the current tree. -/
def eval (metric : String) (s : LoopTreeAgent) : Except Err Nat :=
  match lookupA metricTable metric with
  | some f => f s
  | none => .error (.unknownMetric help_metrics)

end LoopTreeAgent

/-! ### Serialization -/

/-- The decimal digit character for `d < 10` (how `std::to_string`
renders one digit). -/
def digitChar (d : Nat) : Char := Char.ofNat (48 + d)

/-- Whether a character is a decimal digit. -/
def isDigitC (c : Char) : Bool := 48 ≤ c.toNat && c.toNat ≤ 57

/-- Numeric value of a digit character. -/
def dval (c : Char) : Nat := c.toNat - 48

/-- Whether a character is whitespace in the sense of `std::isspace`
(which `std::stoi` skips before the number). -/
def isSpaceC (c : Char) : Bool := c.toNat == 32 || (9 ≤ c.toNat && c.toNat ≤ 13)

/-- Digit rendering worker; the fuel strictly exceeds the value, so the
division chain always terminates inside it. -/
def natCharsAux : Nat → Nat → List Char
  | 0, _ => []
  | fuel + 1, n =>
    if n < 10 then [digitChar n]
    else natCharsAux fuel (n / 10) ++ [digitChar (n % 10)]

/-- Modelled from `std::to_string(unsigned)`: decimal digits, most
significant first. -/
def natChars (n : Nat) : List Char := natCharsAux (n + 1) n

/-- Modelled from `std::to_string(int)`: optional minus sign, then the
decimal digits of the absolute value. -/
def intChars (c : Int) : List Char :=
  if c < 0 then '-' :: natChars c.natAbs else natChars c.toNat

/-- Accumulating decimal value of a digit string. -/
def valAux (acc : Nat) (l : List Char) : Nat :=
  l.foldl (fun a c => 10 * a + dval c) acc

/-- The unsigned part of a number text: the text after an optional
leading sign. -/
def stoiBody (l1 : List Char) : List Char :=
  if l1.head? = some '-' ∨ l1.head? = some '+' then l1.tail else l1

/-- The maximal leading digit run of the unsigned part. -/
def stoiDigits (l1 : List Char) : List Char :=
  (stoiBody l1).takeWhile isDigitC

/-- Modelled from `std::stoi`: skip whitespace, accept one optional
sign, then read a non-empty maximal run of decimal digits (ignoring
whatever follows); throw when no digits are found. -/
def stoiChars (l : List Char) : Except Err Int :=
  if (stoiDigits (l.dropWhile isSpaceC)).isEmpty then
    .error (.malformedSerialization "stoi: no conversion")
  else .ok
    (if (l.dropWhile isSpaceC).head? = some '-' then
      -(valAux 0 (stoiDigits (l.dropWhile isSpaceC)) : Int)
    else (valAux 0 (stoiDigits (l.dropWhile isSpaceC)) : Int))

/-- Split a character list at its first newline, mirroring
`ser.find('\n')` followed by the two `substr` calls; `none` mirrors
`npos`, in which case the source's arithmetic (`npos` as `int` is `-1`,
and `substr(0, -1)` / `substr(0, length)` both yield the whole string)
hands the entire input to both consumers. -/
def splitFirstNL : List Char → Option (List Char × List Char)
  | [] => none
  | c :: rest =>
    if c = '\n' then some ([], rest)
    else (splitFirstNL rest).map (fun p => (c :: p.1, p.2))

mutual

/-- Modelled from the spec: the graph serializer's flat numeric form of
a node — a tag, the node's scalar fields, and a length-prefixed list of
children or input identifiers (§6 treats this text as opaque and owned
by the Serialization component). -/
def flatten : LTNode → List Nat
  | .leaf ins f => 0 :: f :: ins.length :: ins
  | .loop v sz tl r a cs => 1 :: v :: sz :: tl :: r :: a.code :: cs.length :: flattenL cs

/-- `flatten` over a forest. -/
def flattenL : List LTNode → List Nat
  | [] => []
  | c :: cs => flatten c ++ flattenL cs

end

/-- Take exactly `n` leading elements, returning them and the rest. -/
def takeN : Nat → List Nat → Option (List Nat × List Nat)
  | 0, l => some ([], l)
  | _ + 1, [] => none
  | n + 1, x :: l => (takeN n l).map (fun p => (x :: p.1, p.2))

mutual

/-- Decode `n` consecutive nodes with the given node decoder. -/
def decodeLGo (d : List Nat → Option (LTNode × List Nat)) :
    Nat → List Nat → Option (List LTNode × List Nat)
  | 0, rest => some ([], rest)
  | n + 1, rest =>
    (d rest).bind (fun p =>
      (decodeLGo d n p.2).bind (fun q => some (p.1 :: q.1, q.2)))

/-- Decoder of `flatten`, with fuel bounding the nesting depth. -/
def decodeT : Nat → List Nat → Option (LTNode × List Nat)
  | 0, _ => none
  | _ + 1, 0 :: f :: n :: rest =>
    (takeN n rest).map (fun p => (.leaf p.1 f, p.2))
  | fuel + 1, 1 :: v :: sz :: tl :: r :: ac :: n :: rest =>
    (Annot.ofCode ac).bind (fun a =>
      (decodeLGo (decodeT fuel) n rest).bind
        (fun q => some (.loop v sz tl r a q.1, q.2)))
  | _ + 1, _ => none

/-- Decode `n` consecutive nodes at a fixed fuel. -/
def decodeL (fuel : Nat) : Nat → List Nat → Option (List LTNode × List Nat)
  | 0, rest => some ([], rest)
  | n + 1, rest =>
    (decodeT fuel rest).bind (fun p =>
      (decodeL fuel n p.2).bind (fun q => some (p.1 :: q.1, q.2)))

end

/-- Render a number list with each entry as decimal digits followed by
a semicolon. -/
def encNats (ns : List Nat) : List Char :=
  ns.foldr (fun n acc => natChars n ++ ';' :: acc) []

/-- Parse the `encNats` form back, with fuel bounding the number count;
any deviation (missing digits or separator, trailing garbage) fails. -/
def parseNats : Nat → List Char → Option (List Nat)
  | _, [] => some []
  | 0, _ :: _ => none
  | fuel + 1, l =>
    if (l.takeWhile isDigitC).isEmpty then none
    else if (l.drop (l.takeWhile isDigitC).length).head? = some ';' then
      (parseNats fuel ((l.drop (l.takeWhile isDigitC).length).tail)).map
        (fun ns => valAux 0 (l.takeWhile isDigitC) :: ns)
    else none

/-- Modelled from the spec: `loop_tool::serialize(ir)`, the opaque
textual form of the dataflow graph/tree owned by the Serialization
component (§6). -/
def serIR (g : IR) : String := String.mk (encNats (flatten g))

/-- Modelled from the spec: `loop_tool::deserialize(text)`, the inverse
of `serIR`; it aborts with a MalformedSerialization failure on any text
that is not a well-formed graph encoding. -/
def desIR (text : String) : Except Err IR :=
  match (parseNats (text.data.length + 1) text.data).bind
      (fun ns => decodeT (ns.length + 1) ns) with
  | some (t, []) => .ok t
  | _ => .error (.malformedSerialization "graph text is not a well-formed encoding")

namespace LoopTreeAgent

/-- `serialize()`: `std::to_string(cursor) + "\n" + serialize(lt.ir)`. -/
def serialize (s : LoopTreeAgent) : String :=
  String.mk (intChars s.cursor) ++ "\n" ++ serIR s.lt.ir

/-- The common body of `deserialize`: parse the cursor text with
`stoi`, hand the graph text to the graph deserializer, and build a
fresh agent from the resulting tree and cursor; the first failure
aborts. -/
def deserializeCore (line rest : List Char) : Except Err LoopTreeAgent :=
  (stoiChars line).bind (fun c =>
    (desIR (String.mk rest)).bind (fun g =>
      .ok { lt := LoopTree.ofIR g, cursor := c }))

/-- `deserialize(std::string ser)`: find the first newline, parse the
text before it with `stoi` as the cursor, hand the rest to the graph
deserializer, and build a fresh agent from the resulting tree and
cursor.  When no newline exists, `find` returns `npos`, and through the
source's `int` conversion both `substr` calls yield the whole input
(so the entire text serves as both cursor text and graph text). -/
def deserialize (ser : String) : Except Err LoopTreeAgent :=
  match splitFirstNL ser.data with
  | some (line, rest) => deserializeCore line rest
  | none => deserializeCore ser.data ser.data

end LoopTreeAgent

mutual

/-- Preorder linearization of a tree (defines `TreeRef` positions and
the lines of `dump`). -/
def preorderT : LTNode → List LTNode
  | .leaf ins f => [.leaf ins f]
  | .loop v sz tl r a cs => .loop v sz tl r a cs :: preorderL cs

/-- Preorder linearization of a forest. -/
def preorderL : List LTNode → List LTNode
  | [] => []
  | c :: cs => preorderT c ++ preorderL cs

end

/-- Modelled from the spec: one line of `LoopTree::dump`'s rendering of
a node (diagnostic text only). -/
def headerLine : LTNode → String
  | .loop v sz tl _ a _ =>
    "for v" ++ String.mk (natChars v) ++ " in " ++ String.mk (natChars sz) ++
      (if tl = 0 then "" else " r " ++ String.mk (natChars tl)) ++
      (if a = .nothing then "" else " [" ++ a.str ++ "]")
  | .leaf _ f => "op (" ++ String.mk (natChars f) ++ ")"

namespace LoopTreeAgent

/-- `dump()`: the tree rendered line by line with the cursor's line
specially marked. -/
def dump (s : LoopTreeAgent) : String :=
  String.intercalate "\n"
    (((preorderT s.lt.ir).enum).map
      (fun p =>
        headerLine p.2 ++
          (if (p.1 : Int) = s.cursor then
            "<<<<<< cursor (line " ++ String.mk (intChars s.cursor) ++ " )"
          else "")))

end LoopTreeAgent

/-! ### Concrete evaluation points and helper tables -/

/-- An agent whose whole tree is a single compute leaf (used as a
concrete evaluation point). -/
def leafAgent : LoopTreeAgent := { lt := ⟨.leaf [5] 1⟩, cursor := 0 }

/-- An agent on a perfectly nested two-loop tree (used as a concrete
evaluation point). -/
def nestAgent : LoopTreeAgent :=
  { lt := ⟨.loop 0 4 0 0 .nothing [.loop 1 3 0 0 .nothing [.leaf [5] 2]]⟩,
    cursor := 0 }

/-- An agent holding a single loop of extent 64 over one compute leaf
(the spec's concrete FLOPs scenario). -/
def flopsAgent : LoopTreeAgent :=
  { lt := ⟨.loop 0 64 0 0 .nothing [.leaf [7] 2]⟩, cursor := 0 }

/-- `flopsAgent` after `split_16`. -/
def flopsAgentSplit : LoopTreeAgent :=
  { lt := ⟨.loop 0 4 0 0 .nothing [.loop 0 16 0 0 .nothing [.leaf [7] 2]]⟩,
    cursor := 0 }

/-- `flopsAgent` after `vectorize`. -/
def flopsAgentVec : LoopTreeAgent :=
  { lt := ⟨.loop 0 64 0 0 .vectorize [.leaf [7] 2]⟩, cursor := 0 }

/-- An agent whose root loop already carries the `vectorize`
annotation (the C5 counterexample state). -/
def vecAgent : LoopTreeAgent :=
  { lt := ⟨.loop 0 4 0 0 .vectorize [.leaf [] 1]⟩, cursor := 0 }

/-- The split-action names with their split sizes. -/
def splitSizes : List (String × Nat) :=
  [("split_2", 2), ("split_4", 4), ("split_8", 8), ("split_16", 16),
   ("split_32", 32), ("split_64", 64), ("split_128", 128), ("split_256", 256)]

/-- The first line of a persisted text: the part before the first
newline, or the whole text when no newline exists (mirroring the
source's `npos` arithmetic). -/
def firstSegment (s : String) : List Char :=
  match splitFirstNL s.data with
  | some (line, _) => line
  | none => s.data

/-- Whether a whole text is an optionally signed decimal numeral (the
natural reading of "a numeric cursor value"). -/
def numericText (l : List Char) : Bool :=
  !(stoiBody (l.dropWhile isSpaceC)).isEmpty &&
    (stoiBody (l.dropWhile isSpaceC)).all isDigitC

/-! ### Claim theorems -/

/-- C3: for every agent whose cursor refers to a Leaf node,
`apply_action("merge")` fails with an IllegalMutation error and, on
that failure, leaves the agent's tree and cursor unchanged (no partial
writes are observable). -/
theorem C3_merge_on_leaf_fails (s : LoopTreeAgent) (ins : List Nat) (f : Nat)
    (h : nodeAtI s.lt.ir s.cursor = some (.leaf ins f)) :
    LoopTreeAgent.apply_action "merge" s =
      .error (.illegalMutation "merge: reference is not a loop") ∧
    (LoopTreeAgent.apply_action "merge" s).isOk = false ∧
    LoopTreeAgent.tryApply "merge" s = s := by
  have hm : Mutate.merge s.lt.ir s.cursor =
      .error (.illegalMutation "merge: reference is not a loop") :=
    modifyAtI_error_of_f Mutate.mergeF h rfl
  have ha : LoopTreeAgent.apply_action "merge" s = LoopTreeAgent.merge s := rfl
  have hb : LoopTreeAgent.apply_action "merge" s =
      .error (.illegalMutation "merge: reference is not a loop") := by
    rw [ha]
    simp [LoopTreeAgent.merge, hm, Except.map]
  refine ⟨hb, by simp [hb, Except.isOk, Except.toBool], ?_⟩
  simp [LoopTreeAgent.tryApply, hb]

/-- C3 witness: the concrete single-leaf agent exhibits the failure and
the untouched state. -/
theorem C3_witness :
    nodeAtI leafAgent.lt.ir leafAgent.cursor = some (.leaf [5] 1) ∧
    LoopTreeAgent.apply_action "merge" leafAgent =
      .error (.illegalMutation "merge: reference is not a loop") ∧
    LoopTreeAgent.tryApply "merge" leafAgent = leafAgent :=
  ⟨by decide, (C3_merge_on_leaf_fails leafAgent [5] 1 (by decide)).1,
    (C3_merge_on_leaf_fails leafAgent [5] 1 (by decide)).2.2⟩

/-- The `get_available_actions` loop, unrolled: since the snapshot is
restored after every trial, each action is tried against the initial
state and the loop's final state is the snapshot itself. -/
theorem gaa_foldl (s : LoopTreeAgent) :
    ∀ (names : List String) (acc : List String),
      names.foldl (LoopTreeAgent.gaaStep s) (acc, s) =
        (acc ++ names.filter (fun n => (LoopTreeAgent.apply_action n s).isOk), s) := by
  intro names
  induction names with
  | nil => intro acc; simp
  | cons n rest ih =>
    intro acc
    have hstep : LoopTreeAgent.gaaStep s (acc, s) n =
        ((if (LoopTreeAgent.apply_action n s).isOk then acc ++ [n] else acc), s) := by
      cases hn : LoopTreeAgent.apply_action n s with
      | ok s' => simp [LoopTreeAgent.gaaStep, hn, Except.isOk, Except.toBool]
      | error e => simp [LoopTreeAgent.gaaStep, hn, Except.isOk, Except.toBool]
    rw [List.foldl_cons, hstep]
    rw [ih]
    by_cases hb : (LoopTreeAgent.apply_action n s).isOk
    · simp [List.filter_cons, hb]
    · simp [List.filter_cons, hb]

/-- C1: `get_available_actions` returns exactly the names whose trial
application (from the unchanged starting state) succeeds, and it leaves
the agent's `(tree, cursor)` exactly as they were, so a second call
observes the identical state and identical `dump()` output. -/
theorem C1_get_available_actions_pure (s : LoopTreeAgent) :
    (LoopTreeAgent.get_available_actions s).2 = s ∧
    (LoopTreeAgent.get_available_actions s).1 =
      LoopTreeAgent.actionNames.filter
        (fun n => (LoopTreeAgent.apply_action n s).isOk) ∧
    LoopTreeAgent.get_available_actions
        ((LoopTreeAgent.get_available_actions s).2) =
      LoopTreeAgent.get_available_actions s ∧
    LoopTreeAgent.dump ((LoopTreeAgent.get_available_actions s).2) =
      LoopTreeAgent.dump s := by
  have h : LoopTreeAgent.get_available_actions s =
      (LoopTreeAgent.actionNames.filter
        (fun n => (LoopTreeAgent.apply_action n s).isOk), s) := by
    simpa [LoopTreeAgent.get_available_actions] using
      gaa_foldl s LoopTreeAgent.actionNames []
  exact ⟨by rw [h], by rw [h], by rw [h]; exact h, by rw [h]⟩

/-- C2 counterexample: on the single-leaf agent, the `copy_input_1`
trial fails with a defect-kind error — the unchecked
`get_inputs(lt, cursor)[1]` subscript — which is not an
IllegalMutation, yet `get_available_actions` swallows it (the source
catches every `std::runtime_error`) and returns normally instead of
propagating it. -/
theorem C2_counterexample :
    LoopTreeAgent.apply_action "copy_input_1" leafAgent =
      .error (.defect "vector subscript out of range in copy_input") ∧
    Err.isIllegalMutation
      (.defect "vector subscript out of range in copy_input") = false ∧
    LoopTreeAgent.get_available_actions leafAgent = ([], leafAgent) := by
  refine ⟨by decide, by decide, by decide⟩

/-- C2 (amended): during `get_available_actions` every error raised by
a trial application — of any kind, not just IllegalMutation — is caught
and swallowed, the failing action is treated as unavailable, and the
agent's state is restored; no error propagates to the caller. -/
theorem C2_gaa_swallows_all_errors (s : LoopTreeAgent) (n : String) (e : Err)
    (_hn : n ∈ LoopTreeAgent.actionNames)
    (he : LoopTreeAgent.apply_action n s = .error e) :
    n ∉ (LoopTreeAgent.get_available_actions s).1 ∧
    (LoopTreeAgent.get_available_actions s).2 = s := by
  have h : LoopTreeAgent.get_available_actions s =
      (LoopTreeAgent.actionNames.filter
        (fun n => (LoopTreeAgent.apply_action n s).isOk), s) := by
    simpa [LoopTreeAgent.get_available_actions] using
      gaa_foldl s LoopTreeAgent.actionNames []
  rw [h]
  refine ⟨?_, rfl⟩
  intro hmem
  rcases List.mem_filter.mp hmem with ⟨-, hok⟩
  rw [he] at hok
  simp [Except.isOk, Except.toBool] at hok

/-- C2 witness for the amended claim: instantiated on the single-leaf
agent and its defect-failing `copy_input_1` trial. -/
theorem C2_witness :
    "copy_input_1" ∉ (LoopTreeAgent.get_available_actions leafAgent).1 ∧
    (LoopTreeAgent.get_available_actions leafAgent).2 = leafAgent :=
  C2_gaa_swallows_all_errors leafAgent "copy_input_1"
    (.defect "vector subscript out of range in copy_input")
    (by decide) (by decide)

/-- An association-list lookup finds a value for every present key. -/
theorem lookupA_mem {α : Type} :
    ∀ (l : List (String × α)) (k : String), k ∈ l.map Prod.fst →
      ∃ v, LoopTreeAgent.lookupA l k = some v := by
  intro l
  induction l with
  | nil => intro k hk; simp at hk
  | cons p rest ih =>
    intro k hk
    rw [List.map_cons] at hk
    by_cases he : k = p.1
    · exact ⟨p.2, by simp [LoopTreeAgent.lookupA, he]⟩
    · have hk2 : k ∈ rest.map Prod.fst := by
        rcases List.mem_cons.mp hk with h | h
        · exact absurd h he
        · exact h
      obtain ⟨v, hv⟩ := ih k hk2
      exact ⟨v, by simp [LoopTreeAgent.lookupA, he, hv]⟩

/-- An association-list lookup fails exactly on absent keys. -/
theorem lookupA_not_mem {α : Type} :
    ∀ (l : List (String × α)) (k : String), k ∉ l.map Prod.fst →
      LoopTreeAgent.lookupA l k = none := by
  intro l
  induction l with
  | nil => intro k _; rfl
  | cons p rest ih =>
    intro k hk
    rw [List.map_cons] at hk
    have h1 : ¬ k = p.1 := fun h => hk (by rw [h]; exact List.mem_cons_self _ _)
    have h2 : k ∉ rest.map Prod.fst := fun h => hk (List.mem_cons_of_mem _ h)
    simp [LoopTreeAgent.lookupA, h1, ih k h2]

/-- Folding name-and-newline appends only ever extends the text. -/
theorem foldl_help_suffix :
    ∀ (names : List String) (init : String),
      ∃ t, (names.foldl (fun acc n => acc ++ n ++ "\n") init).data = init.data ++ t := by
  intro names
  induction names with
  | nil => intro init; exact ⟨[], by simp⟩
  | cons m rest ih =>
    intro init
    obtain ⟨t, ht⟩ := ih (init ++ m ++ "\n")
    refine ⟨(m ++ "\n").data ++ t, ?_⟩
    rw [List.foldl_cons, ht]
    simp [String.data_append]

/-- Every listed name occurs, with its line ending, inside a help text
built by the source's fold. -/
theorem help_contains :
    ∀ (names : List String) (init : String) (a : String), a ∈ names →
      ∃ pre post,
        (names.foldl (fun acc n => acc ++ n ++ "\n") init).data =
          pre ++ (a ++ "\n").data ++ post := by
  intro names
  induction names with
  | nil => intro init a ha; simp at ha
  | cons m rest ih =>
    intro init a ha
    rcases List.mem_cons.mp ha with h | h
    · subst h
      obtain ⟨t, ht⟩ := foldl_help_suffix rest (init ++ a ++ "\n")
      refine ⟨init.data, t, ?_⟩
      rw [List.foldl_cons, ht]
      simp [String.data_append, String.append_assoc]
    · obtain ⟨pre, post, hp⟩ := ih (init ++ m ++ "\n") a h
      exact ⟨pre, post, by rw [List.foldl_cons, hp]⟩

/-- C4: `apply_action(name)` dispatches to a registered member exactly
when `name` is one of the 19 registered, case-sensitive action names;
for any other string it fails with an unknown-action error whose
message is `help_actions()`, a listing that contains every registered
action name on its own line. -/
theorem C4_action_dispatch (name : String) (s : LoopTreeAgent) :
    (name ∈ LoopTreeAgent.actionNames →
      ∃ f, LoopTreeAgent.lookupA LoopTreeAgent.actionTable name = some f ∧
        LoopTreeAgent.apply_action name s = f s) ∧
    (name ∉ LoopTreeAgent.actionNames →
      LoopTreeAgent.apply_action name s =
        .error (.unknownAction LoopTreeAgent.help_actions)) ∧
    (∀ a ∈ LoopTreeAgent.actionNames,
      ∃ pre post, LoopTreeAgent.help_actions.data =
        pre ++ (a ++ "\n").data ++ post) := by
  have hkeys : LoopTreeAgent.actionTable.map Prod.fst =
      LoopTreeAgent.actionNames := by rfl
  refine ⟨?_, ?_, ?_⟩
  · intro hmem
    obtain ⟨f, hf⟩ :=
      lookupA_mem LoopTreeAgent.actionTable name (by rw [hkeys]; exact hmem)
    exact ⟨f, hf, by simp [LoopTreeAgent.apply_action, hf]⟩
  · intro hmem
    have hf := lookupA_not_mem LoopTreeAgent.actionTable name
      (by rw [hkeys]; exact hmem)
    simp [LoopTreeAgent.apply_action, hf]
  · intro a ha
    exact help_contains LoopTreeAgent.actionNames "Available actions are:\n" a ha

/-- C4 witness: `merge` (registered) dispatches; `Merge` (wrong case)
fails with the unknown-action error carrying the help listing. -/
theorem C4_witness :
    (∃ f, LoopTreeAgent.lookupA LoopTreeAgent.actionTable "merge" = some f ∧
      LoopTreeAgent.apply_action "merge" leafAgent = f leafAgent) ∧
    LoopTreeAgent.apply_action "Merge" leafAgent =
      .error (.unknownAction LoopTreeAgent.help_actions) ∧
    (∃ pre post, LoopTreeAgent.help_actions.data =
      pre ++ ("split_256" ++ "\n").data ++ post) :=
  ⟨(C4_action_dispatch "merge" leafAgent).1 (by decide),
    (C4_action_dispatch "Merge" leafAgent).2.1 (by decide),
    (C4_action_dispatch "merge" leafAgent).2.2 "split_256" (by decide)⟩

/-- An action that assigns only `lt` preserves the cursor value. -/
theorem cursor_of_ltmap {E : Except Err LTNode} {s s' : LoopTreeAgent}
    (h : E.map (fun t => { s with lt := ⟨t⟩ }) = .ok s') :
    s'.cursor = s.cursor := by
  cases E with
  | error e => simp [Except.map] at h
  | ok t =>
    simp [Except.map] at h
    rw [← h]

/-- A navigation action that assigns only `cursor` preserves the tree. -/
theorem lt_of_cursormap {E : Except Err TreeRef} {s s' : LoopTreeAgent}
    (h : E.map (fun p => { s with cursor := p }) = .ok s') :
    s'.lt = s.lt := by
  cases E with
  | error e => simp [Except.map] at h
  | ok p =>
    simp [Except.map] at h
    rw [← h]

theorem cursor_of_annotate {a : Annot} {s s' : LoopTreeAgent}
    (h : LoopTreeAgent.annotate a s = .ok s') : s'.cursor = s.cursor := by
  unfold LoopTreeAgent.annotate at h
  by_cases hc : Mutate.annotStr s.lt.ir s.cursor = a.str
  · rw [if_pos hc] at h
    exact cursor_of_ltmap h
  · rw [if_neg hc] at h
    exact cursor_of_ltmap h

theorem cursor_of_copyInput {i : Nat} {s s' : LoopTreeAgent}
    (h : LoopTreeAgent.copyInputIdx i s = .ok s') : s'.cursor = s.cursor := by
  unfold LoopTreeAgent.copyInputIdx at h
  cases hg : (Mutate.get_inputs s.lt.ir s.cursor).get? i with
  | none => rw [hg] at h; simp at h
  | some inputId =>
    rw [hg] at h
    exact cursor_of_ltmap h

theorem cursor_of_swapUp {s s' : LoopTreeAgent}
    (h : LoopTreeAgent.swap_up s = .ok s') : s'.cursor = s.cursor := by
  unfold LoopTreeAgent.swap_up at h
  split at h
  · simp at h
  · split at h
    · simp at h
    · simp at h
      rw [← h]

theorem cursor_of_swapDown {s s' : LoopTreeAgent}
    (h : LoopTreeAgent.swap_down s = .ok s') : s'.cursor = s.cursor := by
  unfold LoopTreeAgent.swap_down at h
  split at h
  · simp at h
  · split at h
    · simp at h
    · simp at h
      rw [← h]

/-- C10: the navigation actions `up` and `down` modify only the cursor
and leave the tree entirely unchanged; every other registered action
reassigns only the tree and leaves the cursor's numeric value
unchanged. -/
theorem C10_action_frame (s s' : LoopTreeAgent) (n : String) :
    ((n = "up" ∨ n = "down") → LoopTreeAgent.apply_action n s = .ok s' →
      s'.lt = s.lt) ∧
    (n ∈ LoopTreeAgent.actionNames → n ≠ "up" → n ≠ "down" →
      LoopTreeAgent.apply_action n s = .ok s' → s'.cursor = s.cursor) := by
  constructor
  · rintro (rfl | rfl) h
    · exact lt_of_cursormap h
    · exact lt_of_cursormap h
  · intro hmem hup hdown h
    simp [LoopTreeAgent.actionNames] at hmem
    rcases hmem with rfl|rfl|rfl|rfl|rfl|rfl|rfl|rfl|rfl|rfl|rfl|rfl|rfl|rfl|rfl|rfl|rfl|rfl|rfl
    · exact cursor_of_copyInput h
    · exact cursor_of_copyInput h
    · exact cursor_of_ltmap h
    · exact absurd rfl hdown
    · exact cursor_of_ltmap h
    · exact cursor_of_ltmap h
    · exact cursor_of_ltmap h
    · exact cursor_of_ltmap h
    · exact cursor_of_ltmap h
    · exact cursor_of_ltmap h
    · exact cursor_of_ltmap h
    · exact cursor_of_ltmap h
    · exact cursor_of_ltmap h
    · exact cursor_of_ltmap h
    · exact cursor_of_swapDown h
    · exact cursor_of_swapUp h
    · exact cursor_of_annotate h
    · exact absurd rfl hup
    · exact cursor_of_annotate h

/-- C10 witness: on a two-level loop nest, `down` succeeds leaving the
tree untouched and `merge` succeeds leaving the cursor untouched. -/
theorem C10_witness :
    (LoopTreeAgent.apply_action "down" nestAgent).isOk = true ∧
    (LoopTreeAgent.apply_action "merge" nestAgent).isOk = true ∧
    (∀ s', LoopTreeAgent.apply_action "down" nestAgent = .ok s' →
      s'.lt = nestAgent.lt) ∧
    (∀ s', LoopTreeAgent.apply_action "merge" nestAgent = .ok s' →
      s'.cursor = nestAgent.cursor) :=
  ⟨by decide, by decide,
    fun s' h => (C10_action_frame nestAgent s' "down").1 (Or.inr rfl) h,
    fun s' h => (C10_action_frame nestAgent s' "merge").2 (by decide)
      (by decide) (by decide) h⟩

/-- C8: copy-constructing an agent yields a new agent whose cursor
equals the original's cursor and whose tree is rebuilt from the
original's underlying dataflow graph; in this value-semantics model
the rebuilt tree coincides with the original tree value, and the copy
shares no mutable state with the original. -/
theorem C8_copy_constructor (a : LoopTreeAgent) :
    (LoopTreeAgent.copy a).cursor = a.cursor ∧
    (LoopTreeAgent.copy a).lt = LoopTree.ofIR a.lt.ir ∧
    LoopTreeAgent.copy a = a :=
  ⟨rfl, rfl, rfl⟩

/-- C5 counterexample: on a Loop-cursor agent whose node is already
annotated `vectorize`, applying `vectorize` twice does not return the
node to an unannotated state — the first application clears and the
second re-sets the annotation, so the final node still carries
`vectorize`. -/
theorem C5_counterexample :
    nodeAtI vecAgent.lt.ir vecAgent.cursor =
      some (.loop 0 4 0 0 .vectorize [.leaf [] 1]) ∧
    (LoopTreeAgent.apply_action "vectorize" vecAgent).bind
      (LoopTreeAgent.apply_action "vectorize") = .ok vecAgent ∧
    Mutate.annotStr vecAgent.lt.ir vecAgent.cursor = "vectorize" := by
  refine ⟨by decide, by decide, by decide⟩

/-- The annotation strings distinguish the annotations. -/
theorem Annot.str_inj : ∀ x y : Annot, x.str = y.str → x = y := by
  intro x y h
  cases x <;> cases y <;> first
    | rfl
    | exact absurd h (by decide)

/-- `annotF` preserves node count. -/
theorem annotF_size (a : Annot) :
    ∀ n n', Mutate.annotF a n = .ok n' → sizeT n ≤ sizeT n' := by
  intro n n' h
  cases n with
  | loop v sz tl r a0 cs =>
    simp [Mutate.annotF] at h
    rw [← h]
    simp [sizeT]
  | leaf ins f => simp [Mutate.annotF] at h

/-- Toggling a non-`nothing` annotation twice on a loop node whose
annotation differs from it first sets and then clears it. -/
theorem annotate_toggle_clears (s : LoopTreeAgent) (a : Annot)
    (v sz tl r : Nat) (ann : Annot) (cs : List LTNode)
    (h : nodeAtI s.lt.ir s.cursor = some (.loop v sz tl r ann cs))
    (hne : ann ≠ a) :
    ∃ s2, (LoopTreeAgent.annotate a s).bind (LoopTreeAgent.annotate a) = .ok s2 ∧
      s2.cursor = s.cursor ∧
      nodeAtI s2.lt.ir s2.cursor = some (.loop v sz tl r .nothing cs) := by
  have hstr : Mutate.annotStr s.lt.ir s.cursor = ann.str := by
    simp [Mutate.annotStr, h]
  have hstrne : Mutate.annotStr s.lt.ir s.cursor ≠ a.str := by
    rw [hstr]
    intro hx
    exact hne (Annot.str_inj ann a hx)
  obtain ⟨t1, hm1, hn1⟩ := modifyAtI_ok_of_nodeAtI (Mutate.annotF a)
    (annotF_size a) h (show Mutate.annotF a (.loop v sz tl r ann cs) =
      .ok (.loop v sz tl r a cs) by simp [Mutate.annotF])
  have h1 : LoopTreeAgent.annotate a s = .ok { s with lt := ⟨t1⟩ } := by
    unfold LoopTreeAgent.annotate
    rw [if_neg hstrne]
    simp [Mutate.annotate, hm1, Except.map]
  have hstr1 : Mutate.annotStr t1 s.cursor = a.str := by
    simp [Mutate.annotStr, hn1]
  obtain ⟨t2, hm2, hn2⟩ := modifyAtI_ok_of_nodeAtI (Mutate.annotF .nothing)
    (annotF_size .nothing) hn1
    (show Mutate.annotF .nothing (.loop v sz tl r a cs) =
      .ok (.loop v sz tl r .nothing cs) by simp [Mutate.annotF])
  have h2 : LoopTreeAgent.annotate a { s with lt := ⟨t1⟩ } =
      .ok { s with lt := ⟨t2⟩ } := by
    unfold LoopTreeAgent.annotate
    rw [if_pos (show Mutate.annotStr t1 s.cursor = a.str from hstr1)]
    simp [Mutate.annotate, hm2, Except.map]
  refine ⟨{ s with lt := ⟨t2⟩ }, ?_, rfl, by simpa using hn2⟩
  rw [h1]
  exact h2

/-- C5 (amended): on an agent whose cursor is on a Loop node whose
annotation is not already the one being applied, `vectorize` twice in
succession first sets and then clears the annotation, returning the
node to its unannotated state (all other node fields intact); the same
holds for `unroll`.  (When the node already carries that annotation the
pair of applications instead restores it — see the counterexample.) -/
theorem C5_annotation_toggle (s : LoopTreeAgent) (v sz tl r : Nat)
    (ann : Annot) (cs : List LTNode)
    (h : nodeAtI s.lt.ir s.cursor = some (.loop v sz tl r ann cs)) :
    (ann ≠ .vectorize → ∃ s2,
      (LoopTreeAgent.apply_action "vectorize" s).bind
        (LoopTreeAgent.apply_action "vectorize") = .ok s2 ∧
      s2.cursor = s.cursor ∧
      nodeAtI s2.lt.ir s2.cursor = some (.loop v sz tl r .nothing cs)) ∧
    (ann ≠ .unroll → ∃ s2,
      (LoopTreeAgent.apply_action "unroll" s).bind
        (LoopTreeAgent.apply_action "unroll") = .ok s2 ∧
      s2.cursor = s.cursor ∧
      nodeAtI s2.lt.ir s2.cursor = some (.loop v sz tl r .nothing cs)) := by
  have hfa : LoopTreeAgent.apply_action "vectorize" =
      LoopTreeAgent.annotate .vectorize := rfl
  have hfu : LoopTreeAgent.apply_action "unroll" =
      LoopTreeAgent.annotate .unroll := rfl
  constructor
  · intro hne
    rw [hfa]
    exact annotate_toggle_clears s .vectorize v sz tl r ann cs h hne
  · intro hne
    rw [hfu]
    exact annotate_toggle_clears s .unroll v sz tl r ann cs h hne

/-- C5 witness: the amended toggle on the concrete two-loop agent. -/
theorem C5_witness :
    ∃ s2, (LoopTreeAgent.apply_action "vectorize" nestAgent).bind
        (LoopTreeAgent.apply_action "vectorize") = .ok s2 ∧
      s2.cursor = nestAgent.cursor ∧
      nodeAtI s2.lt.ir s2.cursor =
        some (.loop 0 4 0 0 .nothing [.loop 1 3 0 0 .nothing [.leaf [5] 2]]) :=
  (C5_annotation_toggle nestAgent 0 4 0 0 .nothing
    [.loop 1 3 0 0 .nothing [.leaf [5] 2]] (by decide)).1 (by decide)

/-- Inversion for the lt-assigning action shape. -/
theorem ltmap_ok_inv {E : Except Err LTNode} {s s' : LoopTreeAgent}
    (h : E.map (fun t => { s with lt := ⟨t⟩ }) = .ok s') :
    ∃ t, E = .ok t ∧ s' = { s with lt := ⟨t⟩ } := by
  cases E with
  | error e => simp [Except.map] at h
  | ok t =>
    simp [Except.map] at h
    exact ⟨t, rfl, h.symm⟩

/-- `annotF` never changes the FLOPs count at any truncation set. -/
theorem annotF_flopsT (a : Annot) :
    ∀ n n', Mutate.annotF a n = .ok n' → ∀ V, flopsT V n' = flopsT V n := by
  intro n n' h V
  cases n with
  | loop v sz tl r a0 cs =>
    simp [Mutate.annotF] at h
    rw [← h]
    simp [flopsT]
  | leaf ins f => simp [Mutate.annotF] at h

/-- Exchanging the nesting order of a perfectly nested tail-free loop
pair never changes the FLOPs count at any truncation set. -/
theorem swapF_flopsT :
    ∀ n n', Mutate.swapF n = .ok n' → ∀ V, flopsT V n' = flopsT V n := by
  intro n n' h V
  unfold Mutate.swapF at h
  split at h
  case h_1 v1 s1 r1 a1 v2 s2 r2 a2 cs =>
    split at h
    · simp at h
    · simp at h
      rw [← h]
      by_cases h1 : v1 ∈ V <;> by_cases h2 : v2 ∈ V <;>
        by_cases h12 : v1 ∈ v2 :: V <;> by_cases h21 : v2 ∈ v1 :: V <;>
        (simp_all [flopsT, flopsTL, List.mem_cons]; try ring)
  case h_2 => simp at h

/-- `splitF` adds exactly one node, so sizes never shrink. -/
theorem splitF_size (k : Nat) :
    ∀ n n', Mutate.splitF k n = .ok n' → sizeT n ≤ sizeT n' := by
  intro n n' h
  unfold Mutate.splitF at h
  split at h
  case h_1 v sz tl r a cs =>
    split at h
    · simp at h
    · split at h
      · simp at h
      · simp at h
        rw [← h]
        simp [sizeT, sizeL]
  case h_2 => simp at h

/-- A split followed by a merge of the resulting pair reproduces the
original node exactly (the extent round-trip, including the remainder:
`(sz / k) * k + sz % k = sz`). -/
theorem splitF_mergeF_id (k : Nat) :
    ∀ n n2, (Mutate.splitF k n).bind Mutate.mergeF = .ok n2 → n2 = n := by
  intro n n2 h
  unfold Mutate.splitF at h
  split at h
  case h_1 v sz tl r a cs =>
    split at h
    · simp [Except.bind] at h
    · split at h
      case isTrue htl => simp [Except.bind] at h
      case isFalse htl =>
        have htl0 : tl = 0 := by omega
        subst htl0
        simp only [Except.bind] at h
        simp [Mutate.mergeF] at h
        rw [← h]
        have hdm : sz / k * k + sz % k = sz := by
          rw [Nat.mul_comm]
          exact Nat.div_add_mod sz k
        simp [hdm]
  case h_2 => simp [Except.bind] at h

/-- The agent-level annotate (either toggle branch) preserves FLOPs. -/
theorem annotate_flops {a : Annot} {s s' : LoopTreeAgent}
    (h : LoopTreeAgent.annotate a s = .ok s') :
    treeFLOPs s'.lt.ir = treeFLOPs s.lt.ir := by
  unfold LoopTreeAgent.annotate at h
  by_cases hc : Mutate.annotStr s.lt.ir s.cursor = a.str
  · rw [if_pos hc] at h
    obtain ⟨t, ht, rfl⟩ := ltmap_ok_inv h
    exact modifyAtI_flopsT _ (annotF_flopsT .nothing) ht []
  · rw [if_neg hc] at h
    obtain ⟨t, ht, rfl⟩ := ltmap_ok_inv h
    exact modifyAtI_flopsT _ (annotF_flopsT a) ht []

/-- A successful `try_swap` preserves FLOPs at any truncation set. -/
theorem try_swap_flopsT {t t' : LTNode} {r o : TreeRef}
    (h : Mutate.try_swap t r o = .ok t') : ∀ V, flopsT V t' = flopsT V t := by
  unfold Mutate.try_swap at h
  by_cases h1 : o = r + 1
  · rw [if_pos h1] at h
    exact modifyAtI_flopsT _ swapF_flopsT h
  · rw [if_neg h1] at h
    by_cases h2 : r = o + 1
    · rw [if_pos h2] at h
      exact modifyAtI_flopsT _ swapF_flopsT h
    · rw [if_neg h2] at h
      simp at h

/-- Each split action dispatches to `split` with its size. -/
theorem apply_action_splits :
    ∀ p ∈ splitSizes,
      LoopTreeAgent.apply_action p.1 = LoopTreeAgent.split p.2 := by
  intro p hp
  simp [splitSizes] at hp
  rcases hp with rfl|rfl|rfl|rfl|rfl|rfl|rfl|rfl <;> rfl

/-- `eval("FLOPs")` computes the static count of the current tree. -/
theorem eval_FLOPs (s : LoopTreeAgent) :
    LoopTreeAgent.eval "FLOPs" s = .ok (treeFLOPs s.lt.ir) := rfl

/-- C9: `eval("FLOPs")` is unchanged by annotate (the `vectorize` and
`unroll` toggles and the engine `annotate` for any text), by any
legality-preserving (i.e. succeeding) swap, and by a split followed by
a merge at the resulting node. -/
theorem C9_flops_invariant (s s1 s2 : LoopTreeAgent) :
    ((LoopTreeAgent.apply_action "vectorize" s = .ok s1 ∨
      LoopTreeAgent.apply_action "unroll" s = .ok s1) →
      LoopTreeAgent.eval "FLOPs" s1 = LoopTreeAgent.eval "FLOPs" s) ∧
    ((LoopTreeAgent.apply_action "swap_up" s = .ok s1 ∨
      LoopTreeAgent.apply_action "swap_down" s = .ok s1) →
      LoopTreeAgent.eval "FLOPs" s1 = LoopTreeAgent.eval "FLOPs" s) ∧
    (∀ name k, (name, k) ∈ splitSizes →
      LoopTreeAgent.apply_action name s = .ok s1 →
      LoopTreeAgent.apply_action "merge" s1 = .ok s2 →
      LoopTreeAgent.eval "FLOPs" s2 = LoopTreeAgent.eval "FLOPs" s) ∧
    (∀ (t t' : LTNode) (i : TreeRef) (a : Annot),
      Mutate.annotate t i a = .ok t' → treeFLOPs t' = treeFLOPs t) ∧
    (∀ (t t' : LTNode) (i j : TreeRef),
      Mutate.try_swap t i j = .ok t' → treeFLOPs t' = treeFLOPs t) := by
  refine ⟨?_, ?_, ?_, ?_, ?_⟩
  · rintro (h | h)
    · have := annotate_flops (a := .vectorize) (show LoopTreeAgent.annotate
        .vectorize s = .ok s1 from h)
      simp [eval_FLOPs, this]
    · have := annotate_flops (a := .unroll) (show LoopTreeAgent.annotate
        .unroll s = .ok s1 from h)
      simp [eval_FLOPs, this]
  · rintro (h | h)
    · have h' : LoopTreeAgent.swap_up s = .ok s1 := h
      unfold LoopTreeAgent.swap_up at h'
      split at h'
      · simp at h'
      · split at h'
        · simp at h'
        · rename_i p hp t ht
          simp at h'
          rw [← h']
          simp [eval_FLOPs]
          exact try_swap_flopsT ht []
    · have h' : LoopTreeAgent.swap_down s = .ok s1 := h
      unfold LoopTreeAgent.swap_down at h'
      split at h'
      · simp at h'
      · split at h'
        · simp at h'
        · rename_i p hp t ht
          simp at h'
          rw [← h']
          simp [eval_FLOPs]
          exact try_swap_flopsT ht []
  · intro name k hmem h1 h2
    rw [apply_action_splits (name, k) hmem] at h1
    have h1' : (Mutate.split s.lt.ir s.cursor k).map
        (fun t => { s with lt := ⟨t⟩ }) = .ok s1 := h1
    obtain ⟨t1, ht1, rfl⟩ := ltmap_ok_inv h1'
    have h2' : (Mutate.merge t1 s.cursor).map
        (fun t => { ({ s with lt := ⟨t1⟩ } : LoopTreeAgent) with lt := ⟨t⟩ }) =
        .ok s2 := h2
    obtain ⟨t2, ht2, rfl⟩ := ltmap_ok_inv h2'
    have hcomp := modifyAtI_comp (Mutate.splitF k) Mutate.mergeF
      (splitF_size k) (show modifyAtI (Mutate.splitF k) s.lt.ir s.cursor =
        .ok t1 from ht1)
    have ht2' : modifyAtI
        (fun n => (Mutate.splitF k n).bind Mutate.mergeF) s.lt.ir s.cursor =
        .ok t2 := by
      rw [← hcomp]
      exact ht2
    have hfl := modifyAtI_flopsT _
      (fun n n2 hh V => by rw [splitF_mergeF_id k n n2 hh]) ht2' []
    simp [eval_FLOPs]
    exact hfl
  · intro t t' i a h
    exact modifyAtI_flopsT _ (annotF_flopsT a) h []
  · intro t t' i j h
    exact try_swap_flopsT h []

/-- C9 witness: on the extent-64 loop, the `vectorize` toggle keeps
`eval("FLOPs")` at its original value, and `split_16` followed by
`merge` at the resulting node does too. -/
theorem C9_witness :
    LoopTreeAgent.apply_action "vectorize" flopsAgent = .ok flopsAgentVec ∧
    LoopTreeAgent.eval "FLOPs" flopsAgentVec =
      LoopTreeAgent.eval "FLOPs" flopsAgent ∧
    LoopTreeAgent.apply_action "split_16" flopsAgent = .ok flopsAgentSplit ∧
    LoopTreeAgent.apply_action "merge" flopsAgentSplit = .ok flopsAgent ∧
    LoopTreeAgent.eval "FLOPs" flopsAgent =
      LoopTreeAgent.eval "FLOPs" flopsAgent :=
  ⟨by decide,
    (C9_flops_invariant flopsAgent flopsAgentVec flopsAgent).1
      (Or.inl (by decide)),
    by decide, by decide,
    (C9_flops_invariant flopsAgent flopsAgentSplit flopsAgent).2.2.1
      "split_16" 16 (by decide) (by decide) (by decide)⟩

/-! ### Serialization lemmas -/

theorem isDigitC_digitChar {d : Nat} (h : d < 10) :
    isDigitC (digitChar d) = true := by
  interval_cases d <;> decide

theorem dval_digitChar {d : Nat} (h : d < 10) : dval (digitChar d) = d := by
  interval_cases d <;> decide

theorem natCharsAux_digits :
    ∀ (fuel n : Nat), n < fuel → ∀ c ∈ natCharsAux fuel n, isDigitC c = true := by
  intro fuel
  induction fuel with
  | zero => intro n hn; omega
  | succ fl ih =>
    intro n hn c hc
    rw [natCharsAux] at hc
    by_cases h : n < 10
    · rw [if_pos h] at hc
      simp at hc
      subst hc
      exact isDigitC_digitChar h
    · rw [if_neg h] at hc
      rcases List.mem_append.mp hc with hm | hm
      · exact ih (n / 10) (by omega) c hm
      · simp at hm
        subst hm
        exact isDigitC_digitChar (Nat.mod_lt n (by omega))

theorem natChars_digits : ∀ n, ∀ c ∈ natChars n, isDigitC c = true := by
  intro n
  exact natCharsAux_digits (n + 1) n (by omega)

theorem natCharsAux_ne_nil :
    ∀ (fuel n : Nat), n < fuel → natCharsAux fuel n ≠ [] := by
  intro fuel
  induction fuel with
  | zero => intro n hn; omega
  | succ fl ih =>
    intro n hn
    rw [natCharsAux]
    by_cases h : n < 10
    · rw [if_pos h]
      simp
    · rw [if_neg h]
      simp

theorem natChars_ne_nil (n : Nat) : natChars n ≠ [] :=
  natCharsAux_ne_nil (n + 1) n (by omega)

theorem digit_not_nl {c : Char} (h : isDigitC c = true) : c ≠ '\n' := by
  intro he
  rw [he] at h
  exact absurd h (by decide)

theorem digit_not_semi {c : Char} (h : isDigitC c = true) : c ≠ ';' := by
  intro he
  rw [he] at h
  exact absurd h (by decide)

theorem digit_not_space {c : Char} (h : isDigitC c = true) :
    isSpaceC c = false := by
  simp [isDigitC] at h
  simp [isSpaceC]
  omega

theorem digit_not_minus {c : Char} (h : isDigitC c = true) : c ≠ '-' := by
  intro he
  rw [he] at h
  exact absurd h (by decide)

theorem digit_not_plus {c : Char} (h : isDigitC c = true) : c ≠ '+' := by
  intro he
  rw [he] at h
  exact absurd h (by decide)

theorem valAux_natCharsAux :
    ∀ (fuel n : Nat), n < fuel → ∀ acc,
      valAux acc (natCharsAux fuel n) =
        acc * 10 ^ (natCharsAux fuel n).length + n := by
  intro fuel
  induction fuel with
  | zero => intro n hn; omega
  | succ fl ih =>
    intro n hn acc
    rw [natCharsAux]
    by_cases h : n < 10
    · rw [if_pos h]
      simp [valAux, List.foldl, dval_digitChar h]
      ring
    · rw [if_neg h]
      have hrec := ih (n / 10) (by omega) acc
      have hmod : n % 10 < 10 := Nat.mod_lt n (by omega)
      have happ : valAux acc (natCharsAux fl (n / 10) ++ [digitChar (n % 10)]) =
          10 * valAux acc (natCharsAux fl (n / 10)) + dval (digitChar (n % 10)) := by
        simp [valAux, List.foldl_append, List.foldl]
      rw [happ, hrec, dval_digitChar hmod, List.length_append]
      simp only [List.length_singleton, pow_succ, ← mul_assoc]
      generalize acc * 10 ^ (natCharsAux fl (n / 10)).length = X
      omega

theorem valAux_natChars (n : Nat) (acc : Nat) :
    valAux acc (natChars n) = acc * 10 ^ (natChars n).length + n :=
  valAux_natCharsAux (n + 1) n (by omega) acc

theorem valAux_zero_natChars (n : Nat) : valAux 0 (natChars n) = n := by
  have := valAux_natChars n 0
  simpa using this

/-- `takeWhile` keeps a fully satisfying prefix up to a failing
delimiter. -/
theorem takeWhile_append_stop {p : Char → Bool} :
    ∀ (l1 : List Char) (x : Char) (l2 : List Char),
      (∀ c ∈ l1, p c = true) → p x = false →
      (l1 ++ x :: l2).takeWhile p = l1 := by
  intro l1
  induction l1 with
  | nil => intro x l2 _ hx; simp [List.takeWhile, hx]
  | cons c cs ih =>
    intro x l2 hall hx
    have hc : p c = true := hall c (by simp)
    have hrest := ih x l2 (fun d hd => hall d (by simp [hd])) hx
    simp [List.takeWhile, hc, hrest]

/-- `takeWhile` over a fully satisfying list keeps it whole. -/
theorem takeWhile_all {p : Char → Bool} :
    ∀ l : List Char, (∀ c ∈ l, p c = true) → l.takeWhile p = l := by
  intro l
  induction l with
  | nil => intro _; rfl
  | cons c cs ih =>
    intro hall
    have hc : p c = true := hall c (by simp)
    have hrest := ih (fun d hd => hall d (by simp [hd]))
    simp [List.takeWhile, hc, hrest]

/-- `dropWhile` with a failing head is the identity. -/
theorem dropWhile_head_false {p : Char → Bool} {c : Char} {cs : List Char}
    (h : p c = false) : (c :: cs).dropWhile p = c :: cs := by
  simp [List.dropWhile, h]

theorem splitFirstNL_append :
    ∀ (l1 : List Char), '\n' ∉ l1 → ∀ l2,
      splitFirstNL (l1 ++ '\n' :: l2) = some (l1, l2) := by
  intro l1
  induction l1 with
  | nil => intro _ l2; simp [splitFirstNL]
  | cons c cs ih =>
    intro hnl l2
    have hc : ¬ c = '\n' := fun h => hnl (by simp [h])
    simp [splitFirstNL, hc]
    exact ih (fun h => hnl (by simp [h])) l2

theorem intChars_no_nl (c : Int) : '\n' ∉ intChars c := by
  unfold intChars
  by_cases h : c < 0
  · rw [if_pos h]
    intro hm
    rcases List.mem_cons.mp hm with h1 | h1
    · exact absurd h1 (by decide)
    · exact absurd rfl (digit_not_nl (natChars_digits _ _ h1))
  · rw [if_neg h]
    intro hm
    exact absurd rfl (digit_not_nl (natChars_digits _ _ hm))

/-- `stoi` on a pure digit string reads its decimal value. -/
theorem stoiChars_digits (l : List Char) (hne : l ≠ [])
    (hall : ∀ c ∈ l, isDigitC c = true) :
    stoiChars l = .ok (valAux 0 l) := by
  obtain ⟨d, ds, rfl⟩ : ∃ d ds, l = d :: ds := by
    cases l with
    | nil => exact absurd rfl hne
    | cons d ds => exact ⟨d, ds, rfl⟩
  have hd : isDigitC d = true := hall d (by simp)
  have hdrop : (d :: ds).dropWhile isSpaceC = d :: ds :=
    dropWhile_head_false (digit_not_space hd)
  have hdm : ¬ ((d :: ds).head? = some '-' ∨ (d :: ds).head? = some '+') := by
    rw [List.head?_cons]
    rintro (hx | hx)
    · exact absurd (Option.some.inj hx) (digit_not_minus hd)
    · exact absurd (Option.some.inj hx) (digit_not_plus hd)
  have hbody : stoiBody (d :: ds) = d :: ds := by
    unfold stoiBody
    rw [if_neg hdm]
  have hdig : stoiDigits (d :: ds) = d :: ds := by
    unfold stoiDigits
    rw [hbody, takeWhile_all (d :: ds) hall]
  have hdm1 : ¬ (d :: ds).head? = some '-' := by
    rw [List.head?_cons]
    intro hx
    exact absurd (Option.some.inj hx) (digit_not_minus hd)
  unfold stoiChars
  rw [hdrop, hdig]
  rw [if_neg (by simp)]
  rw [if_neg hdm1]

/-- `stoi` on a minus sign followed by digits reads the negated
value. -/
theorem stoiChars_neg_digits (l : List Char) (hne : l ≠ [])
    (hall : ∀ c ∈ l, isDigitC c = true) :
    stoiChars ('-' :: l) = .ok (-(valAux 0 l : Int)) := by
  have hdrop : ('-' :: l).dropWhile isSpaceC = '-' :: l :=
    dropWhile_head_false (by decide)
  have hbody : stoiBody ('-' :: l) = l := by
    unfold stoiBody
    rw [List.head?_cons]
    rw [if_pos (Or.inl rfl)]
    rfl
  have hdig : stoiDigits ('-' :: l) = l := by
    unfold stoiDigits
    rw [hbody, takeWhile_all l hall]
  have hni : ¬ (l.isEmpty = true) := by simpa using hne
  have hneg : ('-' :: l).head? = some '-' := List.head?_cons
  unfold stoiChars
  rw [hdrop, hdig]
  rw [if_neg hni]
  rw [if_pos hneg]

theorem stoiChars_intChars (c : Int) : stoiChars (intChars c) = .ok c := by
  by_cases h : c < 0
  · have hic : intChars c = '-' :: natChars c.natAbs := by
      unfold intChars
      rw [if_pos h]
    rw [hic, stoiChars_neg_digits _ (natChars_ne_nil _) (natChars_digits _)]
    rw [valAux_zero_natChars]
    congr 1
    omega
  · have hic : intChars c = natChars c.toNat := by
      unfold intChars
      rw [if_neg h]
    rw [hic, stoiChars_digits _ (natChars_ne_nil _) (natChars_digits _)]
    rw [valAux_zero_natChars]
    congr 1
    omega

theorem Annot.ofCode_code : ∀ a : Annot, Annot.ofCode a.code = some a := by
  intro a
  cases a <;> rfl

theorem takeN_append :
    ∀ (xs : List Nat) (r : List Nat), takeN xs.length (xs ++ r) = some (xs, r) := by
  intro xs
  induction xs with
  | nil => intro r; rfl
  | cons x xs ih =>
    intro r
    simp [takeN, ih r]

theorem encNats_cons (n : Nat) (ns : List Nat) :
    encNats (n :: ns) = natChars n ++ ';' :: encNats ns := rfl

theorem length_le_encNats : ∀ ns : List Nat, ns.length ≤ (encNats ns).length := by
  intro ns
  induction ns with
  | nil => simp [encNats]
  | cons n rest ih =>
    rw [encNats_cons, List.length_append]
    have h1 : 1 ≤ (natChars n).length := by
      cases hn : natChars n with
      | nil => exact absurd hn (natChars_ne_nil n)
      | cons c cs => simp
    simp only [List.length_cons]
    omega

theorem parseNats_encNats :
    ∀ (ns : List Nat) (fuel : Nat), ns.length ≤ fuel →
      parseNats fuel (encNats ns) = some ns := by
  intro ns
  induction ns with
  | nil => intro fuel _; cases fuel <;> rfl
  | cons n rest ih =>
    intro fuel hf
    obtain ⟨f, rfl⟩ : ∃ f, fuel = f + 1 := by
      cases fuel with
      | zero => simp at hf
      | succ f => exact ⟨f, rfl⟩
    obtain ⟨d, ds, hds⟩ : ∃ d ds, natChars n = d :: ds := by
      cases hn : natChars n with
      | nil => exact absurd hn (natChars_ne_nil n)
      | cons d ds => exact ⟨d, ds, rfl⟩
    have henc : encNats (n :: rest) = d :: (ds ++ ';' :: encNats rest) := by
      rw [encNats_cons, hds]
      rfl
    have htw : (d :: (ds ++ ';' :: encNats rest)).takeWhile isDigitC =
        d :: ds := by
      have := takeWhile_append_stop (d :: ds) ';' (encNats rest)
        (by rw [← hds]; exact natChars_digits n) (by decide)
      simp at this
      exact this
    have hdr : (d :: (ds ++ ';' :: encNats rest)).drop (d :: ds).length =
        ';' :: encNats rest := by
      rw [show d :: (ds ++ ';' :: encNats rest) =
        (d :: ds) ++ ';' :: encNats rest from rfl]
      exact List.drop_left _ _
    rw [henc]
    rw [parseNats]
    rw [htw, hdr]
    rw [if_neg (by simp)]
    rw [if_pos (show (';' :: encNats rest).head? = some ';' from rfl)]
    rw [show (';' :: encNats rest).tail = encNats rest from rfl]
    rw [ih f (by simpa using hf)]
    rw [show (some rest).map (fun ns => valAux 0 (d :: ds) :: ns) =
      some (valAux 0 (d :: ds) :: rest) from rfl]
    rw [← hds, valAux_zero_natChars]
    simp

mutual

theorem heightT_le_sizeT : ∀ t : LTNode, heightT t ≤ sizeT t
  | .leaf ins f => by simp [heightT, sizeT]
  | .loop v sz tl r a cs => by
    have h := heightL_le_sizeL cs
    simp [heightT, sizeT]
    omega

theorem heightL_le_sizeL : ∀ l : List LTNode, heightL l ≤ sizeL l
  | [] => by simp [heightL, sizeL]
  | c :: cs => by
    have h1 := heightT_le_sizeT c
    have h2 := heightL_le_sizeL cs
    simp [heightL, sizeL]
    omega

end

mutual

theorem sizeT_le_flatten : ∀ t : LTNode, sizeT t ≤ (flatten t).length
  | .leaf ins f => by simp [sizeT, flatten]
  | .loop v sz tl r a cs => by
    have h := sizeL_le_flattenL cs
    simp [sizeT, flatten]
    omega

theorem sizeL_le_flattenL : ∀ l : List LTNode, sizeL l ≤ (flattenL l).length
  | [] => by simp [sizeL, flattenL]
  | c :: cs => by
    have h1 := sizeT_le_flatten c
    have h2 := sizeL_le_flattenL cs
    simp [sizeL, flattenL]
    omega

end

theorem decodeLGo_decodeL (fuel : Nat) :
    ∀ (n : Nat) (rest : List Nat),
      decodeLGo (decodeT fuel) n rest = decodeL fuel n rest := by
  intro n
  induction n with
  | zero => intro rest; rfl
  | succ m ih =>
    intro rest
    rw [decodeLGo, decodeL]
    cases hd : decodeT fuel rest with
    | none => rfl
    | some p =>
      simp only [Option.some_bind]
      rw [ih p.2]

theorem decodeT_flatten :
    ∀ t : LTNode, ∀ (fuel : Nat) (rest : List Nat), heightT t ≤ fuel →
      decodeT fuel (flatten t ++ rest) = some (t, rest) := by
  refine LTNode.indT
    (fun t => ∀ fuel rest, heightT t ≤ fuel →
      decodeT fuel (flatten t ++ rest) = some (t, rest))
    (fun l => ∀ fuel rest, heightL l ≤ fuel →
      decodeL fuel l.length (flattenL l ++ rest) = some (l, rest))
    ?_ ?_ ?_ ?_
  · intro ins f fuel rest hh
    obtain ⟨fl, rfl⟩ : ∃ fl, fuel = fl + 1 := by
      cases fuel with
      | zero => simp [heightT] at hh
      | succ fl => exact ⟨fl, rfl⟩
    show decodeT (fl + 1) ((0 :: f :: ins.length :: ins) ++ rest) =
      some (.leaf ins f, rest)
    rw [List.cons_append, List.cons_append, List.cons_append]
    rw [decodeT]
    rw [takeN_append ins rest]
    rfl
  · intro v sz tl r a cs ih fuel rest hh
    obtain ⟨fl, rfl⟩ : ∃ fl, fuel = fl + 1 := by
      cases fuel with
      | zero => simp [heightT] at hh
      | succ fl => exact ⟨fl, rfl⟩
    have hcs : heightL cs ≤ fl := by
      simp [heightT] at hh
      omega
    show decodeT (fl + 1)
      ((1 :: v :: sz :: tl :: r :: a.code :: cs.length :: flattenL cs) ++ rest) =
      some (.loop v sz tl r a cs, rest)
    simp only [List.cons_append]
    rw [decodeT]
    rw [Annot.ofCode_code a]
    simp only [Option.some_bind]
    rw [decodeLGo_decodeL fl cs.length (flattenL cs ++ rest)]
    rw [ih fl rest hcs]
    rfl
  · intro fuel rest _
    show decodeL fuel 0 ([] ++ rest) = some ([], rest)
    rw [List.nil_append]
    rw [decodeL]
  · intro c l ihc ihl fuel rest hh
    have hc : heightT c ≤ fuel := by
      simp [heightL] at hh
      omega
    have hl : heightL l ≤ fuel := by
      simp [heightL] at hh
      omega
    show decodeL fuel (c :: l).length (flattenL (c :: l) ++ rest) =
      some (c :: l, rest)
    have hfl : flattenL (c :: l) = flatten c ++ flattenL l := rfl
    rw [hfl, List.append_assoc, List.length_cons]
    rw [decodeL]
    rw [ihc fuel (flattenL l ++ rest) hc]
    simp only [Option.some_bind]
    rw [ihl fuel rest hl]
    rfl

theorem desIR_serIR (g : IR) : desIR (serIR g) = .ok g := by
  have hdata : (serIR g).data = encNats (flatten g) := rfl
  have hfuel : heightT g ≤ (flatten g).length + 1 := by
    have h1 := heightT_le_sizeT g
    have h2 := sizeT_le_flatten g
    omega
  have hdec : decodeT ((flatten g).length + 1) (flatten g ++ []) =
      some (g, []) := decodeT_flatten g ((flatten g).length + 1) [] hfuel
  rw [List.append_nil] at hdec
  have hscrut : (parseNats ((serIR g).data.length + 1) (serIR g).data).bind
      (fun ns => decodeT (ns.length + 1) ns) = some (g, []) := by
    rw [hdata]
    rw [parseNats_encNats (flatten g) ((encNats (flatten g)).length + 1)
      (by have := length_le_encNats (flatten g); omega)]
    simp only [Option.some_bind]
    exact hdec
  unfold desIR
  rw [hscrut]

/-- C6: `serialize` produces the cursor's integer value, a newline,
then the serialized graph text, and deserializing that text yields an
agent whose cursor equals the original cursor and whose tree is
rebuilt from the same dataflow graph (structural equivalence; in the
model the rebuilt tree equals the original tree value). -/
theorem C6_serialize_roundtrip (a : LoopTreeAgent) :
    LoopTreeAgent.serialize a =
      String.mk (intChars a.cursor) ++ "\n" ++ serIR a.lt.ir ∧
    LoopTreeAgent.deserialize (LoopTreeAgent.serialize a) =
      .ok { lt := LoopTree.ofIR a.lt.ir, cursor := a.cursor } ∧
    LoopTree.ofIR a.lt.ir = a.lt := by
  refine ⟨rfl, ?_, rfl⟩
  have hdata : (LoopTreeAgent.serialize a).data =
      intChars a.cursor ++ '\n' :: (serIR a.lt.ir).data := by
    show (String.mk (intChars a.cursor) ++ "\n" ++ serIR a.lt.ir).data = _
    rw [String.data_append, String.data_append]
    rw [show ("\n" : String).data = ['\n'] from rfl]
    simp
  have hsplit : splitFirstNL (LoopTreeAgent.serialize a).data =
      some (intChars a.cursor, (serIR a.lt.ir).data) := by
    rw [hdata]
    exact splitFirstNL_append (intChars a.cursor) (intChars_no_nl a.cursor) _
  unfold LoopTreeAgent.deserialize
  rw [hsplit]
  show LoopTreeAgent.deserializeCore (intChars a.cursor)
    ((serIR a.lt.ir).data) = _
  unfold LoopTreeAgent.deserializeCore
  rw [stoiChars_intChars a.cursor]
  rw [show String.mk (serIR a.lt.ir).data = serIR a.lt.ir from rfl]
  rw [desIR_serIR a.lt.ir]
  rfl

theorem stoiChars_error_kind {l : List Char} {e : Err}
    (h : stoiChars l = .error e) : e.isMalformedSerialization = true := by
  unfold stoiChars at h
  by_cases hc : (stoiDigits (l.dropWhile isSpaceC)).isEmpty
  · rw [if_pos hc] at h
    rw [← Except.error.inj h]
    rfl
  · rw [if_neg hc] at h
    simp at h

theorem desIR_error_kind {t : String} {e : Err}
    (h : desIR t = .error e) : e.isMalformedSerialization = true := by
  unfold desIR at h
  split at h
  · simp at h
  · rw [← Except.error.inj h]
    rfl

theorem deserializeCore_stoi_err {line rest : List Char} {e : Err}
    (h : stoiChars line = .error e) :
    LoopTreeAgent.deserializeCore line rest = .error e := by
  unfold LoopTreeAgent.deserializeCore
  rw [h]
  rfl

theorem deserializeCore_error_kind {line rest : List Char} {e : Err}
    (h : LoopTreeAgent.deserializeCore line rest = .error e) :
    e.isMalformedSerialization = true := by
  unfold LoopTreeAgent.deserializeCore at h
  cases hs : stoiChars line with
  | error e0 =>
    rw [hs] at h
    simp [Except.bind] at h
    rw [← h]
    exact stoiChars_error_kind hs
  | ok c =>
    rw [hs] at h
    simp only [Except.bind] at h
    cases hd : desIR (String.mk rest) with
    | error e1 =>
      rw [hd] at h
      simp [Except.bind] at h
      rw [← h]
      exact desIR_error_kind hd
    | ok g =>
      rw [hd] at h
      simp [Except.bind] at h

/-- C7 (amended): `deserialize` performs no explicit delimiter check;
whenever `stoi` cannot read the first segment (the first line, or the
whole input when no newline exists) the parse failure — a
MalformedSerialization error — is the result, and every error
`deserialize` ever produces is of the MalformedSerialization kind, so
no agent is constructed from such input. -/
theorem C7_deserialize_malformed (s : String) :
    (∀ e, stoiChars (firstSegment s) = .error e →
      LoopTreeAgent.deserialize s = .error e) ∧
    (∀ e, LoopTreeAgent.deserialize s = .error e →
      e.isMalformedSerialization = true) := by
  constructor
  · intro e he
    unfold firstSegment at he
    unfold LoopTreeAgent.deserialize
    cases hsp : splitFirstNL s.data with
    | none =>
      rw [hsp] at he
      exact deserializeCore_stoi_err he
    | some p =>
      obtain ⟨line, rest⟩ := p
      rw [hsp] at he
      exact deserializeCore_stoi_err he
  · intro e he
    unfold LoopTreeAgent.deserialize at he
    cases hsp : splitFirstNL s.data with
    | none =>
      rw [hsp] at he
      exact deserializeCore_error_kind he
    | some p =>
      obtain ⟨line, rest⟩ := p
      rw [hsp] at he
      exact deserializeCore_error_kind he

/-- C7 witness: a non-numeric input fails with the
MalformedSerialization-kind stoi error and no agent is constructed. -/
theorem C7_witness :
    stoiChars (firstSegment "xx") =
      .error (.malformedSerialization "stoi: no conversion") ∧
    LoopTreeAgent.deserialize "xx" =
      .error (.malformedSerialization "stoi: no conversion") ∧
    Err.isMalformedSerialization
      (.malformedSerialization "stoi: no conversion") = true :=
  ⟨by decide,
    (C7_deserialize_malformed "xx").1 _ (by decide),
    (C7_deserialize_malformed "xx").2 _
      ((C7_deserialize_malformed "xx").1 _ (by decide))⟩

/-- C7 counterexample: an input with no newline at all is deserialized
into an agent (no missing-delimiter failure), and an input whose first
line `12abc` is not a numeric value is also deserialized into an agent
(`stoi` reads the leading `12` and ignores the rest), contradicting
the claim that every such input fails with MalformedSerialization. -/
theorem C7_counterexample :
    splitFirstNL "0;0;0;".data = none ∧
    LoopTreeAgent.deserialize "0;0;0;" =
      .ok { lt := ⟨.leaf [] 0⟩, cursor := 0 } ∧
    numericText "12abc".data = false ∧
    LoopTreeAgent.deserialize "12abc\n0;0;0;" =
      .ok { lt := ⟨.leaf [] 0⟩, cursor := 12 } := by
  have hser : serIR (LTNode.leaf [] 0) = "0;0;0;" := by decide
  have hdes : desIR "0;0;0;" = .ok (LTNode.leaf [] 0) := by
    rw [← hser]
    exact desIR_serIR (LTNode.leaf [] 0)
  have hcore : LoopTreeAgent.deserializeCore "0;0;0;".data "0;0;0;".data =
      .ok { lt := ⟨.leaf [] 0⟩, cursor := 0 } := by
    unfold LoopTreeAgent.deserializeCore
    rw [show stoiChars "0;0;0;".data = .ok 0 from by decide]
    rw [show String.mk ("0;0;0;".data) = "0;0;0;" from rfl]
    rw [hdes]
    rfl
  have hcore2 : LoopTreeAgent.deserializeCore "12abc".data "0;0;0;".data =
      .ok { lt := ⟨.leaf [] 0⟩, cursor := 12 } := by
    unfold LoopTreeAgent.deserializeCore
    rw [show stoiChars "12abc".data = .ok 12 from by decide]
    rw [show String.mk ("0;0;0;".data) = "0;0;0;" from rfl]
    rw [hdes]
    rfl
  refine ⟨by decide, ?_, by decide, ?_⟩
  · unfold LoopTreeAgent.deserialize
    rw [show splitFirstNL "0;0;0;".data = none from by decide]
    exact hcore
  · unfold LoopTreeAgent.deserialize
    rw [show splitFirstNL "12abc\n0;0;0;".data =
      some ("12abc".data, "0;0;0;".data) from by decide]
    exact hcore2

end LoopTool
